import Mathlib

/-!
Verification of the moondream asset worker (`worker/moondream_worker.py`).

This file shallowly embeds the worker's pure computations and its database
effects in Lean 4 and proves the specification claims about them.

Conventions of the embedding:
* Python strings are modelled as `String` / `List Char`; the Unicode-aware
  Python operations (`str.lower`, `str.strip`, `str.isdigit`) are modelled
  on the ASCII fragment that the worker actually handles.
* SQLite tables keyed by a primary key are modelled as functions from the
  key to `Option row`; an `UPDATE ... WHERE pk = ?` is a pointwise update
  that leaves an absent row absent, and `DELETE` + `INSERT` on the same
  primary key is a pointwise overwrite.  The `updated_at = datetime('now')`
  columns are modelled by an explicit `now : Nat` argument.
* Python exceptions are modelled with `Except String` / explicit outcome
  types; a `try/except` block is a `match` on the embedded outcome.
* JSON values are modelled by the inductive `Json`; `json.dumps`/`str()` on
  JSON-like values are modelled by a structural serializer whose exact
  output format is irrelevant to every claim proved here.
-/

/-! ## Character and string primitives -/

/-- ASCII whitespace recognised by Python `str.split()` / `str.strip()`. -/
def isWs (c : Char) : Bool :=
  c = ' ' || c = '\t' || c = '\n' || c = '\r' || c = '\x0b' || c = '\x0c'

/-- ASCII lowercasing, as applied by `str.lower()` on the worker's data. -/
def lowerAscii (c : Char) : Char :=
  if 'A' ≤ c ∧ c ≤ 'Z' then Char.ofNat (c.toNat + 32) else c

/-- Lowercase ASCII letter test (`"a" <= ch <= "z"` in the source). -/
def isLower (c : Char) : Bool := 'a' ≤ c && c ≤ 'z'

/-- ASCII digit test (`"0" <= ch <= "9"` in the source). -/
def isDigit09 (c : Char) : Bool := '0' ≤ c && c ≤ '9'

/-- `ch` is kept by `_normalize_tag_candidate`'s character filter. -/
def keepChar (c : Char) : Bool := isLower c || isDigit09 c || c = ' '

/-- Drop trailing characters satisfying `p` (right half of Python `strip`). -/
def dropTail (p : Char → Bool) : List Char → List Char
  | [] => []
  | c :: cs =>
    match dropTail p cs with
    | [] => if p c then [] else [c]
    | r :: rs => c :: r :: rs

/-- Python `str.strip()` restricted to a character predicate. -/
def stripBy (p : Char → Bool) (l : List Char) : List Char :=
  dropTail p (l.dropWhile p)

/-- Python `str.strip()` (whitespace on both ends). -/
def pyStrip (l : List Char) : List Char := stripBy isWs l

/-- Python `str.split(sep)`, keeping empty parts, with separator predicate. -/
def splitKeep (p : Char → Bool) : List Char → List (List Char)
  | [] => [[]]
  | c :: cs =>
    if p c then [] :: splitKeep p cs
    else
      match splitKeep p cs with
      | [] => [[c]]
      | r :: rs => (c :: r) :: rs

/-- Maximal runs of non-`p` characters: `[part for part in split if part]`.
This is also the semantics of Python's separatorless `str.split()` when `p`
is the whitespace predicate. -/
def runsBy (p : Char → Bool) (l : List Char) : List (List Char) :=
  (splitKeep p l).filter (· ≠ [])

/-- Python `str.split()` (split on whitespace runs, dropping empties). -/
def pyWords (l : List Char) : List (List Char) := runsBy isWs l

/-- Python `sep.join(parts)` for a one-character separator. -/
def joinBy (s : Char) : List (List Char) → List Char
  | [] => []
  | [w] => w
  | w :: ws => w ++ s :: joinBy s ws

/-- Python `" ".join(parts)`. -/
def joinWords (ws : List (List Char)) : List Char := joinBy ' ' ws

/-- Python `needle in haystack` for strings (contiguous substring test). -/
def hasInfix (hay needle : List Char) : Bool :=
  needle.isPrefixOf hay ||
    match hay with
    | [] => false
    | _ :: t => hasInfix t needle

/-- Python `str.lower()` on a whole string (ASCII fragment). -/
def strLower (s : String) : String := ⟨s.data.map lowerAscii⟩

/-! ## `_normalize_tag_candidate` (worker/moondream_worker.py lines 501-623) -/

/-- The hard-coded modifier set of `_normalize_tag_candidate`. -/
def modifiers : List (List Char) :=
  [ "a".data, "an".data, "the".data, "of".data, "and".data, "with".data,
    "without".data, "in".data, "on".data, "at".data,
    "white".data, "black".data, "red".data, "green".data, "blue".data,
    "yellow".data, "orange".data, "purple".data, "pink".data, "brown".data,
    "gray".data, "grey".data, "gold".data, "silver".data,
    "left".data, "right".data, "top".data, "bottom".data, "center".data,
    "central".data, "upper".data, "lower".data, "front".data, "back".data,
    "circular".data, "round".data, "square".data, "rectangular".data,
    "evenly".data, "even".data, "large".data, "small".data, "big".data,
    "tiny".data, "smooth".data, "shiny".data, "side".data,
    "show".data, "shows".data, "showing".data, "depict".data, "depicts".data,
    "depicted".data, "present".data, "presents".data, "presenting".data,
    "placed".data, "arranged".data,
    "image".data, "photo".data, "picture".data, "scene".data,
    "one".data, "two".data, "three".data, "four".data, "five".data,
    "six".data, "seven".data, "eight".data, "nine".data, "ten".data,
    "first".data, "second".data, "third".data ]

/-- Python `str.isdigit()` (nonempty and all digits; ASCII fragment). -/
def pyIsDigit (w : List Char) : Bool := ¬ w.isEmpty && w.all isDigit09

/-- A word survives the `pruned` list comprehension:
`w and w not in modifiers and not w.isdigit()`. -/
def wordKeep (w : List Char) : Bool :=
  ¬ w.isEmpty && ¬ modifiers.contains w && ¬ pyIsDigit w

/-- A word satisfies `w in modifiers or w.isdigit()` (the all-modifiers test). -/
def wordDrop (w : List Char) : Bool := modifiers.contains w || pyIsDigit w

/-- Replace `_` and `-` by a space (the two `str.replace` calls). -/
def underscoreDashToSpace (c : Char) : Char :=
  if c = '_' ∨ c = '-' then ' ' else c

/-- The character-filter loop plus the two replaces: every character that is
not a lowercase letter, digit or space becomes a space. -/
def keepMap (l : List Char) : List Char :=
  (l.map underscoreDashToSpace).map (fun c => if keepChar c then c else ' ')

/-- Strip one leading article among `"a "`, `"an "`, `"the "` (first match,
then `break`), re-stripping whitespace afterwards as the source does. -/
def stripArticle (t : List Char) : List Char :=
  if "a ".data.isPrefixOf t then pyStrip (t.drop 2)
  else if "an ".data.isPrefixOf t then pyStrip (t.drop 3)
  else if "the ".data.isPrefixOf t then pyStrip (t.drop 4)
  else t

/-- The tail of `_normalize_tag_candidate` from `words = t.split()` on:
prune modifiers and digit words, drop all-modifier candidates, truncate to
three words, and require at least two characters. -/
def normFromWords (ws : List (List Char)) : List Char :=
  if ws.isEmpty then []
  else
    let pruned := ws.filter wordKeep
    if pruned.isEmpty && ws.all wordDrop then []
    else
      let ws2 := if ¬ pruned.isEmpty then pruned else ws
      let ws3 := if 3 < ws2.length then ws2.take 3 else ws2
      let t5 := pyStrip (joinWords ws3)
      if t5.length < 2 then [] else t5

/-- `_normalize_tag_candidate` on character lists. -/
def normalizeCore (s : List Char) : List Char :=
  let t0 := (pyStrip s).map lowerAscii
  if t0.isEmpty then []
  else normFromWords (pyWords (stripArticle (joinWords (pyWords (keepMap t0)))))

/-- `_normalize_tag_candidate` (worker/moondream_worker.py line 501). -/
def _normalize_tag_candidate (s : String) : String := ⟨normalizeCore s.data⟩

/-- `_dedupe_preserve_order`'s loop with its `seen` set (line 626). -/
def dedupeAux (seen : List String) : List String → List String
  | [] => []
  | it :: rest =>
    if it = "" then dedupeAux seen rest
    else if seen.contains it then dedupeAux seen rest
    else it :: dedupeAux (it :: seen) rest

/-- `_dedupe_preserve_order` (worker/moondream_worker.py line 626). -/
def _dedupe_preserve_order (items : List String) : List String := dedupeAux [] items

/-! ## Filename slug and extension (lines 870-894) -/

/-- `ch` is kept by `_slugify_filename_base` (lowercase alphanumeric). -/
def alnumb (c : Char) : Bool := isLower c || isDigit09 c

/-- The slug loop: keep alphanumerics, replace each other character by `-`,
where `dash` records whether the previous output character was a dash. -/
def slugAux : List Char → Bool → List Char
  | [], _ => []
  | c :: cs, dash =>
    if alnumb c then c :: slugAux cs false
    else if dash then slugAux cs true
    else '-' :: slugAux cs true

/-- `_slugify_filename_base` (worker/moondream_worker.py line 870):
strip+lower, the dash-collapsing loop, `strip("-")`, the split/filter/join
on `-`, and the 64-character truncation. -/
def _slugify_filename_base (text : String) : String :=
  let raw := (pyStrip text.data).map lowerAscii
  let slug := stripBy (· = '-') (slugAux raw false)
  let slug2 := joinBy '-' ((splitKeep (· = '-') slug).filter (· ≠ []))
  ⟨slug2.take 64⟩

/-- The in-memory `Job` dataclass (worker/moondream_worker.py line 41). -/
structure Job where
  asset_id : String
  project_id : String
  original_name : String
  mime_type : String
  storage_path : String
  storage_url : String
  sha256 : String
deriving DecidableEq

/-- The extension part of `os.path.splitext` (POSIX separators): the last
`.` of the final path component, unless every character of the component
before it is itself a dot. -/
def splitextExt (p : String) : String :=
  let base := ((p.data.reverse.takeWhile (· ≠ '/'))).reverse
  let afterDot := base.reverse.takeWhile (· ≠ '.')
  if afterDot.length = base.length then ""
  else
    let pre := base.take (base.length - afterDot.length - 1)
    if pre.all (· = '.') then "" else ⟨'.' :: afterDot.reverse⟩

/-- `_pick_extension` (worker/moondream_worker.py line 889): extension of
`storage_path`, falling back to `original_name`. -/
def _pick_extension (job : Job) : String :=
  let ext := splitextExt job.storage_path
  if ext ≠ "" then ext else splitextExt job.original_name

/-- `sha8` and the pretty-name assembly of `maybe_rename_asset`
(lines 932-934): `base + ("--" + sha8 if sha8 else "") + ext`. -/
def prettyNameOf (job : Job) (base : String) : String :=
  let sha8 : String := ⟨job.sha256.data.take 8⟩
  base ++ (if sha8 = "" then "" else "--" ++ sha8) ++ _pick_extension job

/-! ## JSON values and Python coercions -/

/-- JSON-like Python values handled by the worker's normalizers.  Numbers
are modelled as rationals (JSON numbers are decimal literals). -/
inductive Json where
  | null
  | bool (b : Bool)
  | num (q : Rat)
  | str (s : String)
  | arr (items : List Json)
  | obj (fields : List (String × Json))

/-- Python truthiness (`if value:`) on JSON-like values. -/
def truthy : Json → Bool
  | .null => false
  | .bool b => b
  | .num q => q ≠ 0
  | .str s => s ≠ ""
  | .arr items => ¬ items.isEmpty
  | .obj fields => ¬ fields.isEmpty

/-- `dict.get(key)`: the first binding of `key`, if any. -/
def jLookup (fields : List (String × Json)) (k : String) : Option Json :=
  match fields with
  | [] => none
  | (k', v) :: rest => if k' = k then some v else jLookup rest k

/-- `key in dict`. -/
def hasKey (fields : List (String × Json)) (k : String) : Bool :=
  (jLookup fields k).isSome

/-- `dict.get(key)` with Python's `None` default, as a JSON value. -/
def jGetD (fields : List (String × Json)) (k : String) : Json :=
  (jLookup fields k).getD .null

/-- Python `a or b` on JSON-like values. -/
def pyOr (a b : Json) : Json := if truthy a then a else b

/-- Parse an unsigned decimal (`digits [ "." digits ]`, at least one digit).
Exponents and special values like `nan`/`inf`, which the worker's data never
contains, are not modelled and fail the parse. -/
def parseFloatCore (l : List Char) : Option Rat :=
  let ip := l.takeWhile isDigit09
  let r1 := l.dropWhile isDigit09
  let ipN : Nat := ip.foldl (fun a c => a * 10 + (c.toNat - '0'.toNat)) 0
  match r1 with
  | [] => if ip.isEmpty then none else some (mkRat ipN 1)
  | '.' :: r2 =>
    let fp := r2.takeWhile isDigit09
    let r3 := r2.dropWhile isDigit09
    if ¬ r3.isEmpty then none
    else if ip.isEmpty && fp.isEmpty then none
    else
      let fpN : Nat := fp.foldl (fun a c => a * 10 + (c.toNat - '0'.toNat)) 0
      some (mkRat (ipN * 10 ^ fp.length + fpN) (10 ^ fp.length))
  | _ => none

/-- Python `float(string)`. -/
def pyParseFloat (s : String) : Option Rat :=
  match pyStrip s.data with
  | '+' :: r => parseFloatCore r
  | '-' :: r => (parseFloatCore r).map Neg.neg
  | r => parseFloatCore r

/-- Python `float(value)` on a JSON-like value: numbers and booleans
convert, numeric strings parse, everything else raises. -/
def pyFloat : Json → Except String Rat
  | .num q => .ok q
  | .bool b => .ok (if b then 1 else 0)
  | .str s =>
    match pyParseFloat s with
    | some q => .ok q
    | none => .error "ValueError"
  | .null => .error "TypeError"
  | .arr _ => .error "TypeError"
  | .obj _ => .error "TypeError"

/-! ## `_extract_detect_boxes` (worker/moondream_worker.py lines 639-721) -/

/-- One box dictionary produced by `_extract_detect_boxes`.  `minmax`
records the preserved `x_min`/`y_min`/`x_max`/`y_max` keys of the
Moondream-style shape; `score` records the `score` key when the producing
branch stores one. -/
structure Box where
  x : Rat
  y : Rat
  w : Rat
  h : Rat
  score : Option Json := none
  minmax : Option (Rat × Rat × Rat × Rat) := none

/-- Walk into `result` (line 653) and then into the first present key
among `objects`, `detections`, `boxes` (lines 655-659). -/
def detectPayload (resp : Json) : Json :=
  let d1 := match resp with
    | .obj f => if hasKey f "result" then jGetD f "result" else resp
    | _ => resp
  match d1 with
  | .obj f =>
    if hasKey f "objects" then jGetD f "objects"
    else if hasKey f "detections" then jGetD f "detections"
    else if hasKey f "boxes" then jGetD f "boxes"
    else d1
  | _ => d1

/-- The per-item loop of `_extract_detect_boxes` (lines 662-720).  The
`x_min`-shaped branch and the 4-tuple branch wrap their `float()` calls in
`try/except` and skip the item on failure; the `{x,y,w,h}` branch and the
nested-`box` branch call `float()` unguarded, so a conversion failure there
escapes the whole function (`Except.error`). -/
def extractBoxesItems : List Json → Except String (List Box)
  | [] => .ok []
  | item :: rest =>
    match item with
    | .obj f =>
      if hasKey f "x_min" && hasKey f "y_min" && hasKey f "x_max" && hasKey f "y_max" then
        -- try/except Exception: pass, then continue
        match pyFloat (jGetD f "x_min"), pyFloat (jGetD f "y_min"),
              pyFloat (jGetD f "x_max"), pyFloat (jGetD f "y_max") with
        | .ok x1, .ok y1, .ok x2, .ok y2 => do
          let bs ← extractBoxesItems rest
          return { x := x1, y := y1, w := x2 - x1, h := y2 - y1,
                   score := jLookup f "score",
                   minmax := some (x1, y1, x2, y2) } :: bs
        | _, _, _, _ => extractBoxesItems rest
      else if hasKey f "x" && hasKey f "y" && hasKey f "w" && hasKey f "h" then do
        -- no try/except here: float() errors propagate
        let x ← pyFloat (jGetD f "x")
        let y ← pyFloat (jGetD f "y")
        let w ← pyFloat (jGetD f "w")
        let h ← pyFloat (jGetD f "h")
        let bs ← extractBoxesItems rest
        return { x := x, y := y, w := w, h := h, score := jLookup f "score" } :: bs
      else
        match jLookup f "box" with
        | some (.obj b) =>
          if hasKey b "x" && hasKey b "y" && hasKey b "w" && hasKey b "h" then do
            -- no try/except here either
            let x ← pyFloat (jGetD b "x")
            let y ← pyFloat (jGetD b "y")
            let w ← pyFloat (jGetD b "w")
            let h ← pyFloat (jGetD b "h")
            let bs ← extractBoxesItems rest
            return { x := x, y := y, w := w, h := h, score := jLookup f "score" } :: bs
          else extractBoxesItems rest  -- dict falls through the tuple test
        | _ => extractBoxesItems rest
    | .arr [a, b, c, d] =>
      -- try: floats; except Exception: continue
      match pyFloat a, pyFloat b, pyFloat c, pyFloat d with
      | .ok x1, .ok y1, .ok x2, .ok y2 => do
        let bs ← extractBoxesItems rest
        return { x := x1, y := y1, w := x2 - x1, h := y2 - y1 } :: bs
      | _, _, _, _ => extractBoxesItems rest
    | _ => extractBoxesItems rest

/-- The final filter (line 721): `b.get("w") and b.get("h") and
b.get("w") > 0 and b.get("h") > 0` — truthiness plus positivity. -/
def boxPositive (b : Box) : Bool :=
  decide (b.w ≠ 0) && decide (b.h ≠ 0) && decide (0 < b.w) && decide (0 < b.h)

/-- `_extract_detect_boxes` (worker/moondream_worker.py line 639), with a
Python exception escaping the function modelled as `Except.error`. -/
def _extract_detect_boxes (resp : Json) : Except String (List Box) :=
  if ¬ truthy resp then .ok []
  else
    match detectPayload resp with
    | .arr items => (extractBoxesItems items).map (·.filter boxPositive)
    | _ => .ok []

/-! ## Tag discovery (worker/moondream_worker.py lines 1013-1059) -/

/-- Candidate assembly for the default hybrid mode (lines 1013-1038):
query-derived candidates first, then caption-derived candidates that are not
already present (when the query yielded nothing this degenerates to the
caption candidates alone), then per-candidate normalization and
order-preserving deduplication (line 1038). -/
def candidatesFor (queryCands capCands : List String) : List String :=
  let merged := queryCands ++ capCands.filter (fun c => ¬ queryCands.contains c)
  _dedupe_preserve_order (merged.map _normalize_tag_candidate)

/-- One candidate passes verification: its `detect` call returns without an
exception and the normalized box list is non-empty.  `detect` is the
provider oracle; `Except.error` covers both `ProviderError` and any other
exception, all of which the loop's bare `except` swallows. -/
def keepCand (detect : String → Except String Json) (c : String) : Bool :=
  match detect c with
  | .error _ => false
  | .ok resp =>
    match _extract_detect_boxes resp with
    | .error _ => false
    | .ok boxes => ¬ boxes.isEmpty

/-- The verification loop (lines 1044-1059), tracking the remaining budget
`max_tags - len(kept_tags)`; the `break` fires when the budget is zero.
Returns the kept tags and the recorded `(tag, boxes, raw)` entries of
`bbox_by_tag`. -/
def verifyTags (detect : String → Except String Json) :
    Nat → List String → List String × List (String × List Box × Json)
  | _, [] => ([], [])
  | 0, _ :: _ => ([], [])
  | Nat.succ k, c :: cs =>
    match detect c with
    | .error _ => verifyTags detect (k + 1) cs
    | .ok resp =>
      match _extract_detect_boxes resp with
      | .error _ => verifyTags detect (k + 1) cs
      | .ok boxes =>
        if boxes.isEmpty then verifyTags detect (k + 1) cs
        else
          let r := verifyTags detect k cs
          (c :: r.1, (c, boxes, resp) :: r.2)

/-- The candidate probe with its truncation (line 1044):
`candidates[: max(24, max_tags * 3)]`. -/
def tagDiscovery (detect : String → Except String Json) (maxTags : Nat)
    (cands : List String) : List String × List (String × List Box × Json) :=
  verifyTags detect maxTags (cands.take (max 24 (maxTags * 3)))

/-! ## VLM providers (worker/moondream_worker.py lines 52-248) -/

mutual
/-- Simplified Python `str()` on JSON-like values, used only to build
caption text and exception messages whose exact content no claim inspects. -/
def pyRepr : Json → String
  | .null => "None"
  | .bool true => "True"
  | .bool false => "False"
  | .num q => toString q
  | .str s => s
  | .arr items => "[" ++ pyReprList items ++ "]"
  | .obj fields => "\x7b" ++ pyReprFields fields ++ "\x7d"
def pyReprList : List Json → String
  | [] => ""
  | [j] => pyRepr j
  | j :: rest => pyRepr j ++ ", " ++ pyReprList rest
def pyReprFields : List (String × Json) → String
  | [] => ""
  | [(k, v)] => k ++ ": " ++ pyRepr v
  | (k, v) :: rest => k ++ ": " ++ pyRepr v ++ ", " ++ pyReprFields rest
end

/-- The observable network interaction of one `requests.post` call:
either the transport raises `RequestException`, or a response arrives with
a status code, a text body, and — when the body is valid JSON — its parsed
value (`none` models a body on which `r.json()` raises). -/
inductive Transport where
  | fail (msg : String)
  | resp (status : Nat) (text : String) (body : Option Json)

/-- Outcome of a provider operation: normal return, a raised
`ProviderError`, or any other raised exception (tagged with its kind). -/
inductive Outcome (α : Type) where
  | ok (a : α)
  | providerError (msg : String)
  | exc (kind : String)
deriving DecidableEq

/-- The outcome is a raised `ProviderError`. -/
def isProviderError {α : Type} : Outcome α → Bool
  | .providerError _ => true
  | _ => false

/-- The shared error ladder of every `LocalStationProvider` operation
(e.g. lines 139-147): `RequestException` → `ProviderError`; HTTP status
`>= 400` → `ProviderError`; `r.json()` failure raises a non-`ProviderError`
`JSONDecodeError`; a JSON object body with a truthy `error` field or
`status` in `("rejected", "timeout")` → `ProviderError`; otherwise the
parsed body is returned. -/
def stationCall (op : String) (t : Transport) : Outcome Json :=
  match t with
  | .fail m => .providerError ("station " ++ op ++ " request failed: " ++ m)
  | .resp status text body =>
    if 400 ≤ status then
      .providerError ("station " ++ op ++ " failed: " ++ toString status ++ " " ++ text)
    else
      match body with
      | none => .exc "JSONDecodeError"
      | some data =>
        let bad := match data with
          | .obj f =>
            truthy (jGetD f "error") ||
              (jGetD f "status" matches .str "rejected") ||
              (jGetD f "status" matches .str "timeout")
          | _ => false
        if bad then .providerError ("station " ++ op ++ " error: " ++ pyRepr data)
        else .ok data

/-- The caption/query post-processing `(data.get(k₁) or data.get(k₂) or
"").strip()` followed by the `json.dumps(data)` fallback.  `data.get` on a
non-dict raises `AttributeError`, as does `.strip()` on a truthy non-string
field value. -/
def stationTextOf (keys : List String) (data : Json) : Outcome String :=
  match data with
  | .obj f =>
    match pyOr (keys.foldr (fun k acc => pyOr (jGetD f k) acc) (.str "")) (.str "") with
    | .str s =>
      .ok (if (⟨pyStrip s.data⟩ : String) = "" then pyRepr data else ⟨pyStrip s.data⟩)
    | _ => .exc "AttributeError"
  | _ => .exc "AttributeError"

/-- `LocalStationProvider.caption` (line 136). -/
def stationCaption (t : Transport) : Outcome String :=
  match stationCall "caption" t with
  | .ok data => stationTextOf ["caption", "text"] data
  | .providerError m => .providerError m
  | .exc k => .exc k

/-- `LocalStationProvider.detect` (line 153): returns the parsed body. -/
def stationDetect (t : Transport) : Outcome Json := stationCall "detect" t

/-- `LocalStationProvider.segment` (line 167): returns the parsed body. -/
def stationSegment (t : Transport) : Outcome Json := stationCall "segment" t

/-- `LocalStationProvider.query` (line 181). -/
def stationQuery (t : Transport) : Outcome String :=
  match stationCall "query" t with
  | .ok data => stationTextOf ["answer", "text", "caption"] data
  | .providerError m => .providerError m
  | .exc k => .exc k

/-- `HuggingFaceProvider.caption` (lines 207-236).  The `requests.post`
call is *not* wrapped in `try/except`, so a transport failure escapes as a
raw `RequestException`; the body is parsed best-effort and never raises
beyond `r.json()`. -/
def hfCaption (t : Transport) : Outcome String :=
  match t with
  | .fail _ => .exc "RequestException"
  | .resp status text body =>
    if 400 ≤ status then .providerError ("hf failed: " ++ toString status ++ " " ++ text)
    else
      match body with
      | none => .exc "JSONDecodeError"
      | some data =>
        let caption : String :=
          match data with
          | .obj f =>
            let v := pyOr (jGetD f "caption") (pyOr (jGetD f "generated_text")
              (pyOr (jGetD f "text") (pyOr (jGetD f "answer") (.str ""))))
            ⟨pyStrip (pyRepr v).data⟩
          | .arr (first :: _) =>
            match first with
            | .obj f0 =>
              ⟨pyStrip (pyRepr (pyOr (jGetD f0 "generated_text")
                (pyOr (jGetD f0 "text") (.str "")))).data⟩
            | _ => ⟨pyStrip (pyRepr data).data⟩
          | _ => ⟨pyStrip (pyRepr data).data⟩
        .ok (if caption = "" then pyRepr data else caption)

/-- `HuggingFaceProvider.detect` (line 238): unconditionally raises. -/
def hfDetect : Outcome Json :=
  .providerError "detect is not supported for the huggingface provider in this worker"

/-- `HuggingFaceProvider.segment` (line 241): unconditionally raises. -/
def hfSegment : Outcome Json :=
  .providerError "segment is not supported for the huggingface provider in this worker"

/-- `HuggingFaceProvider.query` (line 244): unconditionally raises. -/
def hfQuery : Outcome String :=
  .providerError "query is not supported for the huggingface provider in this worker"

/-- The specification's failure condition for a station call: transport
failure, HTTP status `>= 400`, or a JSON object body with a truthy `error`
field or `status` in `("rejected", "timeout")`.  (Stated from the spec's
words, to be compared with the provider embeddings.) -/
def specStationFailure (t : Transport) : Bool :=
  match t with
  | .fail _ => true
  | .resp status _ body =>
    400 ≤ status ||
      match body with
      | some (.obj f) =>
        truthy (jGetD f "error") ||
          (jGetD f "status" matches .str "rejected") ||
          (jGetD f "status" matches .str "timeout")
      | _ => false

/-! ## Database model (worker/moondream_worker.py lines 263-385, 786-867) -/

/-- A row of the external `assets` table. -/
structure AssetRow where
  project_id : String
  original_name : String
  mime_type : String
  storage_path : String
  storage_url : String
  sha256 : String
deriving DecidableEq

/-- A row of `asset_ai`.  `tags` models the JSON array stored in
`tags_json` (the worker round-trips it through `json.dumps`/`json.loads`,
which is the identity on lists of strings). -/
structure AiRow where
  status : String
  caption : String
  tags : List String
  model_version : String
  updated_at : Nat
deriving DecidableEq

/-- A row of `asset_segments` minus its primary key `(asset_id, tag)`.
`bbox` models the `bbox_json` payload structurally (its `json.dumps`
serialization is injective on these records). -/
structure SegRow where
  svg : Option String
  bbox : Option (List Box × Json)
  updated_at : Nat

/-- A row of `asset_search` minus its primary key `asset_id`. -/
structure SearchRow where
  project_id : String
  original_name : String
  caption : String
  tags : String
deriving DecidableEq

/-- A row of `asset_embeddings` minus its primary key `asset_id`. -/
structure EmbRow where
  model : String
  dim : Nat
  embedding : List Nat
  updated_at : Nat
deriving DecidableEq

/-- The shared SQLite database: each table keyed by its primary key. -/
structure DB where
  assets : String → Option AssetRow
  asset_ai : String → Option AiRow
  asset_segments : String → String → Option SegRow
  asset_search : String → Option SearchRow
  asset_embeddings : String → Option EmbRow

/-- `set_status` (line 327): `UPDATE asset_ai SET status=?, updated_at=?
WHERE asset_id=?` — a no-op when the row is absent. -/
def set_status (db : DB) (asset_id status : String) (now : Nat) : DB :=
  { db with asset_ai := fun a =>
      if a = asset_id then (db.asset_ai a).map (fun r => { r with status := status, updated_at := now })
      else db.asset_ai a }

/-- `write_results` (line 334): update caption, tags_json, status,
model_version and updated_at of the `asset_ai` row. -/
def write_results (db : DB) (asset_id caption : String) (tags : List String)
    (status model_version : String) (now : Nat) : DB :=
  { db with asset_ai := fun a =>
      if a = asset_id then
        (db.asset_ai a).map (fun r =>
          { r with caption := caption, tags := tags, status := status,
                   model_version := model_version, updated_at := now })
      else db.asset_ai a }

/-- `update_search_index` (line 356): read the `assets ⋈ asset_ai` left
join (returning early when the `assets` row is gone), then delete and
re-insert the `asset_search` row with the caption and the whitespace-joined
non-empty tags. -/
def update_search_index (db : DB) (asset_id : String) : DB :=
  match db.assets asset_id with
  | none => db
  | some a =>
    let ai := db.asset_ai asset_id
    let caption := match ai with
      | none => ""
      | some r => r.caption
    let tags_text := String.intercalate " "
      ((match ai with | none => [] | some r => r.tags).filter (· ≠ ""))
    { db with asset_search := fun x =>
        if x = asset_id then
          some { project_id := a.project_id, original_name := a.original_name,
                 caption := caption, tags := tags_text }
        else db.asset_search x }

/-- `upsert_segment_row` (line 786): `INSERT ... ON CONFLICT(asset_id,
tag) DO UPDATE` — a pointwise overwrite on the primary key. -/
def upsert_segment_row (db : DB) (asset_id tag : String) (svg : Option String)
    (bbox : Option (List Box × Json)) (now : Nat) : DB :=
  { db with asset_segments := fun a t =>
      if a = asset_id ∧ t = tag then some { svg := svg, bbox := bbox, updated_at := now }
      else db.asset_segments a t }

/-- `upsert_embedding_row` (line 801). -/
def upsert_embedding_row (db : DB) (asset_id model : String) (dim : Nat)
    (embedding : List Nat) (now : Nat) : DB :=
  { db with asset_embeddings := fun a =>
      if a = asset_id then some { model := model, dim := dim, embedding := embedding, updated_at := now }
      else db.asset_embeddings a }

/-- `delete_segments_not_in` (line 859): with an empty keep list, delete
every segment row of the asset; otherwise delete the asset's rows whose tag
is not in the keep list. -/
def delete_segments_not_in (db : DB) (asset_id : String) (keep_tags : List String) : DB :=
  if keep_tags.isEmpty then
    { db with asset_segments := fun a t =>
        if a = asset_id then none else db.asset_segments a t }
  else
    { db with asset_segments := fun a t =>
        if a = asset_id ∧ ¬ keep_tags.contains t then none else db.asset_segments a t }

/-! ## Filename alias, DB part (worker/moondream_worker.py lines 897-937) -/

/-- The database effect of `maybe_rename_asset`: resolve the title (the
`query` result in name mode `query` when that call succeeded, else the
stripped caption), slugify it, and when both are non-empty update
`assets.original_name` to the pretty name.  The filesystem symlink work
(lines 940-969) happens outside the database and is not modelled; every
exception in it is swallowed.  `generate_names` models the
`MOONDREAM_GENERATE_NAMES` gate and `queryTitle` the outcome of the
optional `provider.query` call (`none` when it raised or name mode is
`caption`). -/
def maybe_rename_asset (db : DB) (job : Job) (caption : String)
    (generate_names : Bool) (queryTitle : Option String) : DB :=
  if ¬ generate_names then db
  else
    let title0 : String := match queryTitle with
      | some t => ⟨pyStrip t.data⟩
      | none => ""
    let title := if title0 = "" then (⟨pyStrip caption.data⟩ : String) else title0
    if title = "" then db
    else
      let base := _slugify_filename_base title
      if base = "" then db
      else
        let pretty := prettyNameOf job base
        { db with assets := fun a =>
            if a = job.asset_id then (db.assets a).map (fun r => { r with original_name := pretty })
            else db.assets a }

/-! ## Job loop commit blocks (worker/moondream_worker.py lines 1087-1175) -/

/-- The success transaction (lines 1087-1126): write results with status
`done`, the filename-alias DB update, the optional embedding upsert (the
`if emb_model and emb_dim and emb_blob` truthiness gate), one segment-row
upsert per kept tag, the cleanup of segment rows outside the kept set, and
the search-index rebuild.  `segSvg`/`segBbox` are the per-tag payloads the
enrichment block computed (`segments.get(tag)` and `bbox_by_tag.get(tag)`). -/
def commitSuccess (db : DB) (job : Job) (caption : String) (kept_tags : List String)
    (model_version : String) (generate_names : Bool) (queryTitle : Option String)
    (emb : Option (String × Nat × List Nat)) (segSvg : String → Option String)
    (segBbox : String → Option (List Box × Json)) (now : Nat) : DB :=
  let db1 := write_results db job.asset_id caption kept_tags "done" model_version now
  let db2 := maybe_rename_asset db1 job caption generate_names queryTitle
  let db3 := match emb with
    | some (m, d, b) =>
      if m ≠ "" ∧ d ≠ 0 ∧ ¬ b.isEmpty then upsert_embedding_row db2 job.asset_id m d b now
      else db2
    | none => db2
  let db4 := kept_tags.foldl
    (fun d t => upsert_segment_row d job.asset_id t (segSvg t) (segBbox t) now) db3
  let db5 := delete_segments_not_in db4 job.asset_id kept_tags
  update_search_index db5 job.asset_id

/-- An exception escaping the enrichment block: a `ProviderError` carrying
its message, or any other exception. -/
inductive WorkerExc where
  | providerError (msg : String)
  | other

/-- The transient test (lines 1130-1131): the lowercased message contains
one of `"queue is full"`, `"rejected"`, `"timeout"`, `"timed out"`. -/
def transientMsg (msg : String) : Bool :=
  let m := (strLower msg).data
  hasInfix m "queue is full".data || hasInfix m "rejected".data ||
    hasInfix m "timeout".data || hasInfix m "timed out".data

/-- Result of the error handler: the database after the commit, the status
string written, and whether the worker sleeps the retry backoff. -/
structure HandlerResult where
  db : DB
  status : String
  sleeps : Bool

/-- The shared commit of both error paths (lines 1132-1145 and
1150-1160, 1163-1174): write an empty caption and empty tags with the
given status and the current model version, delete all segment rows of the
asset, and rebuild the search index, in one transaction. -/
def errorCommit (db : DB) (asset_id status model_version : String) (now : Nat) : DB :=
  update_search_index
    (delete_segments_not_in
      (write_results db asset_id "" [] status model_version now) asset_id [])
    asset_id

/-- The error classifier and its commits (lines 1128-1175).  A transient
`ProviderError` re-queues with status `pending` and sleeps the backoff; any
other `ProviderError` and any other exception mark the asset `failed`. -/
def handleJobError (exc : WorkerExc) (asset_id model_version : String) (now : Nat)
    (db : DB) : HandlerResult :=
  match exc with
  | .providerError msg =>
    if transientMsg msg then
      HandlerResult.mk (errorCommit db asset_id "pending" model_version now) "pending" true
    else
      HandlerResult.mk (errorCommit db asset_id "failed" model_version now) "failed" false
  | .other =>
    HandlerResult.mk (errorCommit db asset_id "failed" model_version now) "failed" false

/-! ## Embedding singleton (worker/moondream_worker.py lines 29-30, 822-841) -/

/-- The process-wide globals `_EMBEDDER` and `_EMBEDDER_MODEL_NAME`.  The
loaded `SentenceTransformer` handle is identified by its model name. -/
structure EmbState where
  embedder : Option String
  model_name : Option String
deriving DecidableEq

/-- One call of `_get_embedder`: `avail` says whether importing and
constructing `SentenceTransformer(model_name)` succeeds in this process.
Returns the new globals, the returned pair, whether this call attempted
initialization, and whether it printed the "embeddings disabled" line. -/
structure EmbCall where
  st : EmbState
  result : Option (String × String)
  attempted : Bool
  logged : Bool
deriving DecidableEq

/-- `_get_embedder` (line 822): return the cached handle when the global
is set and the model name matches; otherwise attempt initialization, and on
failure log and reset both globals to `None`. -/
def _get_embedder (avail : Bool) (model_name : String) (st : EmbState) : EmbCall :=
  match st.embedder with
  | some m =>
    if st.model_name = some model_name then ⟨st, some (m, model_name), false, false⟩
    else if avail then ⟨⟨some model_name, some model_name⟩, some (model_name, model_name), true, false⟩
    else ⟨⟨none, none⟩, none, true, true⟩
  | none =>
    if avail then ⟨⟨some model_name, some model_name⟩, some (model_name, model_name), true, false⟩
    else ⟨⟨none, none⟩, none, true, true⟩

/-! ## Auxiliary predicates and concrete fixtures used by the theorems -/

/-- Canonical shape of a non-empty `_normalize_tag_candidate` output: a
space-join of at most three words, each of which is non-empty, purely
lowercase-alphanumeric, not a modifier and not all digits, with at least
two characters in total. -/
def NormCanon (t : List Char) : Prop :=
  ∃ ws, t = joinWords ws ∧ ws ≠ [] ∧ ws.length ≤ 3 ∧
    (∀ w ∈ ws, wordKeep w = true ∧ ∀ c ∈ w, alnumb c = true) ∧ 2 ≤ t.length

/-- A fixture job used by concrete witnesses. -/
def jobW : Job :=
  ⟨"a1", "p1", "orig.jpg", "image/jpeg", "/data/projects/p1/assets/sha.jpg", "",
   "abcdef1234567890"⟩

/-- The fixture `assets` row of `jobW`. -/
def assetRowW : AssetRow :=
  ⟨"p1", "orig.jpg", "image/jpeg", "/data/projects/p1/assets/sha.jpg", "",
   "abcdef1234567890"⟩

/-- A fixture database holding `jobW` in status `processing` with one
stale segment row. -/
def dbW : DB :=
  { assets := fun a => if a = "a1" then some assetRowW else none
  , asset_ai := fun a => if a = "a1" then some ⟨"processing", "old", ["x"], "mv0", 0⟩ else none
  , asset_segments := fun a t => if a = "a1" ∧ t = "x" then some ⟨none, none, 0⟩ else none
  , asset_search := fun _ => none
  , asset_embeddings := fun _ => none }

/-- A fixture detect oracle: one box for `"dog"`, none otherwise. -/
def detectW : String → Except String Json := fun t =>
  if t = "dog" then
    .ok (.obj [("objects", .arr [.obj [("x", .num 2), ("y", .num 3), ("w", .num 4), ("h", .num 5)]])])
  else .ok (.obj [("objects", .arr [])])

/-! ## Lemmas about the string primitives -/

theorem splitKeep_ne_nil (p : Char → Bool) (l : List Char) : splitKeep p l ≠ [] := by
  induction l with
  | nil => simp [splitKeep]
  | cons c cs ih =>
    by_cases hp : p c
    · simp [splitKeep, hp]
    · cases h : splitKeep p cs with
      | nil => exact absurd h ih
      | cons r rs => simp [splitKeep, hp, h]

theorem splitKeep_mem_chars {p : Char → Bool} {l w : List Char}
    (hw : w ∈ splitKeep p l) : ∀ c ∈ w, p c = false ∧ c ∈ l := by
  induction l generalizing w with
  | nil =>
    simp [splitKeep] at hw
    subst hw; simp
  | cons a as ih =>
    by_cases hp : p a
    · simp [splitKeep, hp] at hw
      rcases hw with h | h
      · subst h; simp
      · intro c hc
        exact ⟨(ih h c hc).1, List.mem_cons_of_mem _ (ih h c hc).2⟩
    · cases hsk : splitKeep p as with
      | nil => exact absurd hsk (splitKeep_ne_nil p as)
      | cons r rs =>
        simp [splitKeep, hp, hsk] at hw
        rcases hw with h | h
        · subst h
          intro c hc
          rcases List.mem_cons.mp hc with rfl | hc'
          · exact ⟨by simpa using hp, List.mem_cons_self _ _⟩
          · have hr : r ∈ splitKeep p as := by rw [hsk]; exact List.mem_cons_self _ _
            exact ⟨(ih hr c hc').1, List.mem_cons_of_mem _ (ih hr c hc').2⟩
        · intro c hc
          have hw' : w ∈ splitKeep p as := by rw [hsk]; exact List.mem_cons_of_mem _ h
          exact ⟨(ih hw' c hc).1, List.mem_cons_of_mem _ (ih hw' c hc).2⟩

theorem runsBy_mem {p : Char → Bool} {l w : List Char} (hw : w ∈ runsBy p l) :
    w ≠ [] ∧ ∀ c ∈ w, p c = false ∧ c ∈ l := by
  unfold runsBy at hw
  have h := List.mem_filter.mp hw
  exact ⟨by simpa using h.2, splitKeep_mem_chars h.1⟩

theorem splitKeep_append {p : Char → Bool} (w : List Char) (hw : ∀ c ∈ w, p c = false)
    (t : List Char) {r : List Char} {rs : List (List Char)}
    (ht : splitKeep p t = r :: rs) : splitKeep p (w ++ t) = (w ++ r) :: rs := by
  induction w with
  | nil => simpa using ht
  | cons c cs ih =>
    have hpc : p c = false := hw c (List.mem_cons_self _ _)
    have h2 := ih (fun x hx => hw x (List.mem_cons_of_mem _ hx))
    simp [splitKeep, hpc, h2]

theorem runsBy_joinBy {p : Char → Bool} {sep : Char} (hsep : p sep = true) :
    ∀ ws : List (List Char), (∀ w ∈ ws, w ≠ [] ∧ ∀ c ∈ w, p c = false) →
      runsBy p (joinBy sep ws) = ws
  | [], _ => by simp [joinBy, runsBy, splitKeep]
  | [w], h => by
    have h1 := h w (by simp)
    have h2 : splitKeep p (w ++ ([] : List Char)) = (w ++ []) :: [] :=
      splitKeep_append w h1.2 [] (by simp [splitKeep])
    simp only [List.append_nil] at h2
    simp [joinBy, runsBy, h2, h1.1]
  | w :: w' :: ws, h => by
    have h1 := h w (by simp)
    have ih := runsBy_joinBy hsep (w' :: ws) (fun u hu => h u (List.mem_cons_of_mem _ hu))
    cases hsk : splitKeep p (joinBy sep (w' :: ws)) with
    | nil => exact absurd hsk (splitKeep_ne_nil _ _)
    | cons r rs =>
      have hstep : splitKeep p (sep :: joinBy sep (w' :: ws)) = [] :: r :: rs := by
        simp [splitKeep, hsep, hsk]
      have hall := splitKeep_append w h1.2 (sep :: joinBy sep (w' :: ws)) hstep
      have hjoin : joinBy sep (w :: w' :: ws) = w ++ sep :: joinBy sep (w' :: ws) := by
        simp [joinBy]
      have ih' : List.filter (· ≠ []) (r :: rs) = w' :: ws := by
        have : runsBy p (joinBy sep (w' :: ws)) = w' :: ws := ih
        rw [runsBy, hsk] at this
        exact this
      rw [runsBy, hjoin, hall, List.append_nil,
        List.filter_cons_of_pos (by simpa using h1.1), ih']

theorem dropTail_cons (p : Char → Bool) (c : Char) (cs : List Char) :
    dropTail p (c :: cs) =
      match dropTail p cs with
      | [] => if p c then [] else [c]
      | r :: rs => c :: r :: rs := rfl

theorem dropTail_eq_of_all {p : Char → Bool} : ∀ {l : List Char},
    (∀ c ∈ l, p c = false) → dropTail p l = l
  | [], _ => rfl
  | c :: cs, h => by
    have ih := dropTail_eq_of_all (fun x hx => h x (List.mem_cons_of_mem _ hx))
    cases cs with
    | nil => simp [dropTail, h c (List.mem_cons_self _ _)]
    | cons d ds =>
      rw [dropTail_cons, ih]

theorem dropTail_sublist (p : Char → Bool) : ∀ l : List Char, List.Sublist (dropTail p l) l
  | [] => List.Sublist.refl _
  | c :: cs => by
    cases h : dropTail p cs with
    | nil =>
      by_cases hp : p c
      · simp [dropTail_cons, h, hp]
      · simp [dropTail_cons, h, hp]
    | cons r rs =>
      have hs := dropTail_sublist p cs
      rw [h] at hs
      rw [dropTail_cons, h]
      exact List.Sublist.cons₂ c hs

theorem stripBy_sublist (p : Char → Bool) (l : List Char) : List.Sublist (stripBy p l) l :=
  (dropTail_sublist p _).trans (List.dropWhile_sublist p)

theorem joinBy_ne_nil {sep : Char} : ∀ {ws : List (List Char)},
    ws ≠ [] → (∀ w ∈ ws, w ≠ []) → joinBy sep ws ≠ []
  | [], h, _ => absurd rfl h
  | [w], _, h2 => by simpa [joinBy] using h2 w (by simp)
  | w :: w' :: ws, _, _ => by
    have hjoin : joinBy sep (w :: w' :: ws) = w ++ sep :: joinBy sep (w' :: ws) := by
      simp [joinBy]
    rw [hjoin]
    cases w <;> simp

theorem dropTail_append (p : Char → Bool) : ∀ xs ys : List Char,
    dropTail p (xs ++ ys) =
      if dropTail p ys = [] then dropTail p xs else xs ++ dropTail p ys
  | [], ys => by
    by_cases h : dropTail p ys = [] <;> simp [h, dropTail]
  | x :: xs, ys => by
    have ih := dropTail_append p xs ys
    by_cases h : dropTail p ys = []
    · simp only [h, if_true] at ih ⊢
      rw [List.cons_append, dropTail_cons, ih, dropTail_cons]
    · simp only [h, if_false] at ih ⊢
      have hne : xs ++ dropTail p ys ≠ [] := by
        rcases List.exists_cons_of_ne_nil h with ⟨r, rs, hr⟩
        simp [hr]
      rcases List.exists_cons_of_ne_nil hne with ⟨a, as, ha⟩
      rw [List.cons_append, dropTail_cons, ih, ha, List.cons_append, ha]

theorem dropTail_joinBy {p : Char → Bool} (sep : Char) :
    ∀ ws : List (List Char), (∀ w ∈ ws, w ≠ [] ∧ ∀ c ∈ w, p c = false) → ws ≠ [] →
      dropTail p (joinBy sep ws) = joinBy sep ws
  | [], _, h => absurd rfl h
  | [w], h, _ => by
    simpa [joinBy] using dropTail_eq_of_all (h w (by simp)).2
  | w :: w' :: ws, h, _ => by
    have ih := dropTail_joinBy sep (w' :: ws) (fun u hu => h u (List.mem_cons_of_mem _ hu))
      (by simp)
    have hne : joinBy sep (w' :: ws) ≠ [] :=
      joinBy_ne_nil (by simp) (fun u hu => (h u (List.mem_cons_of_mem _ hu)).1)
    have hjoin : joinBy sep (w :: w' :: ws) = w ++ sep :: joinBy sep (w' :: ws) := by
      simp [joinBy]
    have h1 : dropTail p (sep :: joinBy sep (w' :: ws)) = sep :: joinBy sep (w' :: ws) := by
      rcases List.exists_cons_of_ne_nil hne with ⟨d, ds, hd⟩
      rw [dropTail_cons, ih, hd]
    rw [hjoin, dropTail_append, h1]
    simp

theorem stripBy_joinBy {p : Char → Bool} (sep : Char)
    (ws : List (List Char)) (h : ∀ w ∈ ws, w ≠ [] ∧ ∀ c ∈ w, p c = false)
    (hws : ws ≠ []) : stripBy p (joinBy sep ws) = joinBy sep ws := by
  have hdw : (joinBy sep ws).dropWhile p = joinBy sep ws := by
    cases ws with
    | nil => exact absurd rfl hws
    | cons w ws' =>
      have hw := h w (by simp)
      rcases List.exists_cons_of_ne_nil hw.1 with ⟨c, cs, rfl⟩
      have hpc : p c = false := hw.2 c (List.mem_cons_self _ _)
      cases ws' with
      | nil => simp [joinBy, List.dropWhile, hpc]
      | cons w'' ws'' =>
        have hj : joinBy sep ((c :: cs) :: w'' :: ws'') =
            (c :: cs) ++ sep :: joinBy sep (w'' :: ws'') := by
          simp [joinBy]
        rw [hj]
        simp [List.dropWhile, hpc]
  rw [stripBy, hdw]
  exact dropTail_joinBy sep ws h hws

theorem mem_joinBy {sep : Char} {c : Char} :
    ∀ {ws : List (List Char)}, c ∈ joinBy sep ws → c = sep ∨ ∃ w ∈ ws, c ∈ w
  | [], h => by simp [joinBy] at h
  | [w], h => by
    simp only [joinBy] at h
    exact Or.inr ⟨w, by simp, h⟩
  | w :: w' :: ws, h => by
    have hjoin : joinBy sep (w :: w' :: ws) = w ++ sep :: joinBy sep (w' :: ws) := by
      simp [joinBy]
    rw [hjoin] at h
    rcases List.mem_append.mp h with h1 | h1
    · exact Or.inr ⟨w, by simp, h1⟩
    · rcases List.mem_cons.mp h1 with rfl | h2
      · exact Or.inl rfl
      · rcases mem_joinBy h2 with h3 | ⟨u, hu, hcu⟩
        · exact Or.inl h3
        · exact Or.inr ⟨u, List.mem_cons_of_mem _ hu, hcu⟩

/-! ## Character-class lemmas -/

theorem list_map_id {f : Char → Char} : ∀ l : List Char, (∀ c ∈ l, f c = c) → l.map f = l
  | [], _ => rfl
  | c :: cs, h => by
    rw [List.map_cons, h c (List.mem_cons_self _ _),
      list_map_id cs (fun x hx => h x (List.mem_cons_of_mem _ hx))]

theorem isWs_cases {c : Char} (h : isWs c = true) :
    c = ' ' ∨ c = '\t' ∨ c = '\n' ∨ c = '\r' ∨ c = '\x0b' ∨ c = '\x0c' := by
  simp [isWs] at h
  tauto

theorem alnumb_not_ws {c : Char} (h : alnumb c = true) : isWs c = false := by
  cases hws : isWs c
  · rfl
  · rcases isWs_cases hws with rfl | rfl | rfl | rfl | rfl | rfl <;>
      exact absurd h (by decide)

theorem alnumb_ne_space {c : Char} (h : alnumb c = true) : c ≠ ' ' :=
  fun he => absurd (he ▸ h) (by decide)

theorem ne_space_of_not_ws {c : Char} (h : isWs c = false) : c ≠ ' ' :=
  fun he => by rw [he] at h; exact absurd h (by decide)

theorem lowerAscii_eq_self {c : Char} (h : alnumb c = true ∨ c = ' ') : lowerAscii c = c := by
  unfold lowerAscii
  rw [if_neg]
  rintro ⟨h1, h2⟩
  rcases h with ha | rfl
  · have := (by simpa [alnumb, isLower, isDigit09] using ha :
      ('a' ≤ c ∧ c ≤ 'z') ∨ ('0' ≤ c ∧ c ≤ '9'))
    rcases this with ⟨h3, _⟩ | ⟨_, h4⟩
    · exact absurd (le_trans h3 h2) (by decide)
    · exact absurd (le_trans h1 h4) (by decide)
  · exact absurd h1 (by decide)

theorem keepChar_of_alnumb_or_space {c : Char} (h : alnumb c = true ∨ c = ' ') :
    keepChar c = true := by
  rcases h with h | rfl
  · have := (by simpa [alnumb] using h : isLower c = true ∨ isDigit09 c = true)
    rcases this with h | h <;> simp [keepChar, h]
  · decide

theorem alnumb_of_keepChar_ne_space {c : Char} (h : keepChar c = true) (hs : c ≠ ' ') :
    alnumb c = true := by
  simp [keepChar] at h
  rcases h with (h1 | h1) | h1
  · simp [alnumb, h1]
  · simp [alnumb, h1]
  · exact absurd h1 hs

theorem underscoreDash_eq_self {c : Char} (h : alnumb c = true ∨ c = ' ') :
    underscoreDashToSpace c = c := by
  unfold underscoreDashToSpace
  rw [if_neg]
  rintro (rfl | rfl)
  · rcases h with h | h
    · exact absurd h (by decide)
    · exact absurd h (by decide)
  · rcases h with h | h
    · exact absurd h (by decide)
    · exact absurd h (by decide)

theorem keepMap_keepChar {l : List Char} : ∀ c ∈ keepMap l, keepChar c = true := by
  intro c hc
  unfold keepMap at hc
  rcases List.mem_map.mp hc with ⟨d, _, rfl⟩
  by_cases h : keepChar d
  · simp [h]
  · simp only [h]
    simp
    decide

theorem keepMap_id {l : List Char} (h : ∀ c ∈ l, alnumb c = true ∨ c = ' ') :
    keepMap l = l := by
  unfold keepMap
  rw [list_map_id l (fun c hc => underscoreDash_eq_self (h c hc)),
    list_map_id l (fun c hc => by simp [keepChar_of_alnumb_or_space (h c hc)])]

/-! ## Article stripping on canonical outputs -/

theorem prefix_word_eq {sep : Char} : ∀ (a b t : List Char),
    (∀ c ∈ a, c ≠ sep) → (∀ c ∈ b, c ≠ sep) → (t = [] ∨ ∃ t', t = sep :: t') →
    (a ++ [sep]) <+: (b ++ t) → a = b
  | [], b, t, _, hb, ht, hpre => by
    cases b with
    | nil => rfl
    | cons y ys =>
      exfalso
      have h1 : sep :: ([] : List Char) <+: y :: (ys ++ t) := by simpa using hpre
      exact hb y (by simp) (List.cons_prefix_cons.mp h1).1.symm
  | x :: xs, b, t, ha, hb, ht, hpre => by
    cases b with
    | nil =>
      exfalso
      rcases ht with rfl | ⟨t', rfl⟩
      · simp at hpre
      · have h1 : x :: (xs ++ [sep]) <+: sep :: t' := by simpa using hpre
        exact ha x (by simp) (List.cons_prefix_cons.mp h1).1
    | cons y ys =>
      have h1 : x :: (xs ++ [sep]) <+: y :: (ys ++ t) := by simpa using hpre
      have h2 := List.cons_prefix_cons.mp h1
      have h3 : xs = ys :=
        prefix_word_eq xs ys t (fun c hc => ha c (List.mem_cons_of_mem _ hc))
          (fun c hc => hb c (List.mem_cons_of_mem _ hc)) ht h2.2
      rw [h2.1, h3]

theorem art_not_prefix {a : List Char} (w : List Char) (ws : List (List Char))
    (hart : ∀ c ∈ a, c ≠ ' ') (hwchars : ∀ c ∈ w, c ≠ ' ') (hwa : w ≠ a) :
    (a ++ [' ']).isPrefixOf (joinWords (w :: ws)) = false := by
  cases hpre : (a ++ [' ']).isPrefixOf (joinWords (w :: ws))
  · rfl
  · exfalso
    have hp : (a ++ [' ']) <+: joinWords (w :: ws) := List.isPrefixOf_iff_prefix.mp hpre
    cases ws with
    | nil =>
      have hj : joinWords [w] = w ++ [] := by simp [joinWords, joinBy]
      rw [hj] at hp
      exact hwa (prefix_word_eq a w [] hart hwchars (Or.inl rfl) hp).symm
    | cons w' ws' =>
      have hj : joinWords (w :: w' :: ws') = w ++ ' ' :: joinWords (w' :: ws') := by
        simp [joinWords, joinBy]
      rw [hj] at hp
      exact hwa (prefix_word_eq a w _ hart hwchars (Or.inr ⟨_, rfl⟩) hp).symm

theorem stripArticle_canon {w : List Char} {ws : List (List Char)}
    (hwk : wordKeep w = true) (hchars : ∀ c ∈ w, alnumb c = true) :
    stripArticle (joinWords (w :: ws)) = joinWords (w :: ws) := by
  have hwsp : ∀ c ∈ w, c ≠ ' ' := fun c hc => alnumb_ne_space (hchars c hc)
  have hna : w ≠ "a".data := fun he => by rw [he] at hwk; exact absurd hwk (by decide)
  have hnan : w ≠ "an".data := fun he => by rw [he] at hwk; exact absurd hwk (by decide)
  have hnthe : w ≠ "the".data := fun he => by rw [he] at hwk; exact absurd hwk (by decide)
  have hA : ("a ".data).isPrefixOf (joinWords (w :: ws)) = false :=
    art_not_prefix w ws (by decide) hwsp hna
  have hAn : ("an ".data).isPrefixOf (joinWords (w :: ws)) = false :=
    art_not_prefix w ws (by decide) hwsp hnan
  have hThe : ("the ".data).isPrefixOf (joinWords (w :: ws)) = false :=
    art_not_prefix w ws (by decide) hwsp hnthe
  unfold stripArticle
  simp [hA, hAn, hThe]

/-! ## Canonical form of `_normalize_tag_candidate` outputs -/

theorem wordKeep_ne_nil {w : List Char} (h : wordKeep w = true) : w ≠ [] := by
  intro he
  rw [he] at h
  exact absurd h (by decide)

theorem wordDrop_of_not_wordKeep {w : List Char} (hne : w ≠ [])
    (h : wordKeep w = false) : wordDrop w = true := by
  by_cases hm : modifiers.contains w
  · unfold wordDrop
    rw [hm, Bool.true_or]
  · by_cases hd : pyIsDigit w
    · unfold wordDrop
      rw [hd, Bool.or_true]
    · exfalso
      have h1 : w.isEmpty = false := by simp [List.isEmpty_iff, hne]
      have h2 : modifiers.contains w = false := by
        cases hc : modifiers.contains w
        · rfl
        · exact absurd hc hm
      have h3 : pyIsDigit w = false := by
        cases hc : pyIsDigit w
        · rfl
        · exact absurd hc hd
      have hk : wordKeep w = true := by
        unfold wordKeep
        rw [h1, h2, h3]
        rfl
      rw [h] at hk
      exact Bool.noConfusion hk

theorem normFromWords_canon (ws : List (List Char))
    (hW : ∀ w ∈ ws, wordKeep w = true) (hne : ws ≠ []) (hlen : ws.length ≤ 3)
    (hchars : ∀ w ∈ ws, ∀ c ∈ w, alnumb c = true)
    (hlen2 : 2 ≤ (joinWords ws).length) : normFromWords ws = joinWords ws := by
  have hfil : ws.filter wordKeep = ws := List.filter_eq_self.mpr hW
  have hcond : ∀ w ∈ ws, w ≠ [] ∧ ∀ c ∈ w, isWs c = false :=
    fun w hw => ⟨wordKeep_ne_nil (hW w hw),
      fun c hc => alnumb_not_ws (hchars w hw c hc)⟩
  have hstrip : pyStrip (joinWords ws) = joinWords ws := stripBy_joinBy ' ' ws hcond hne
  have hempty : ws.isEmpty = false := by simp [List.isEmpty_iff, hne]
  simp only [normFromWords, hfil]
  split
  · next h1 => simp [hempty] at h1
  · split
    · next h2 => simp [hempty] at h2
    · have h3 : ¬ (3 < ws.length) := by omega
      rw [if_neg h3, hstrip, if_neg (by omega)]

theorem normFromWords_shape (ws : List (List Char))
    (hW : ∀ w ∈ ws, w ≠ [] ∧ ∀ c ∈ w, alnumb c = true) :
    normFromWords ws = [] ∨ NormCanon (normFromWords ws) := by
  simp only [normFromWords]
  by_cases hne : ws.isEmpty
  · rw [if_pos hne]; left; rfl
  · rw [if_neg hne]
    by_cases hguard : ((ws.filter wordKeep).isEmpty && ws.all wordDrop) = true
    · rw [if_pos hguard]; left; rfl
    · rw [if_neg hguard]
      have hpruned : ¬ ((ws.filter wordKeep).isEmpty = true) := by
        intro hpe
        apply hguard
        rw [Bool.and_eq_true]
        refine ⟨hpe, ?_⟩
        rw [List.all_eq_true]
        intro w hw
        have hwk : wordKeep w = false := by
          cases hq : wordKeep w
          · rfl
          · exfalso
            have hmem : w ∈ ws.filter wordKeep := List.mem_filter.mpr ⟨hw, hq⟩
            rw [List.isEmpty_iff] at hpe
            rw [hpe] at hmem
            simp at hmem
        exact wordDrop_of_not_wordKeep (hW w hw).1 hwk
      rw [if_pos hpruned]
      set w3 := if 3 < (ws.filter wordKeep).length then (ws.filter wordKeep).take 3
        else ws.filter wordKeep with hw3
      have hmem3 : ∀ w ∈ w3, w ∈ ws.filter wordKeep := by
        intro w hw
        rw [hw3] at hw
        by_cases h3 : 3 < (ws.filter wordKeep).length
        · rw [if_pos h3] at hw; exact List.take_subset _ _ hw
        · rw [if_neg h3] at hw; exact hw
      have hW3 : ∀ w ∈ w3, wordKeep w = true ∧ ∀ c ∈ w, alnumb c = true := by
        intro w hw
        have hp : w ∈ ws.filter wordKeep := hmem3 w hw
        have hp' := List.mem_filter.mp hp
        exact ⟨hp'.2, (hW w hp'.1).2⟩
      have hne3 : w3 ≠ [] := by
        rw [hw3]
        by_cases h3 : 3 < (ws.filter wordKeep).length
        · rw [if_pos h3]
          intro he
          have h0 : (List.take 3 (ws.filter wordKeep)).length = 0 := by rw [he]; rfl
          rw [List.length_take, Nat.min_def] at h0
          split at h0 <;> omega
        · rw [if_neg h3]
          simpa [List.isEmpty_iff] using hpruned
      have hlen3 : w3.length ≤ 3 := by
        rw [hw3]
        by_cases h3 : 3 < (ws.filter wordKeep).length
        · rw [if_pos h3, List.length_take]
          exact min_le_left _ _
        · rw [if_neg h3]
          omega
      have hcond3 : ∀ w ∈ w3, w ≠ [] ∧ ∀ c ∈ w, isWs c = false :=
        fun w hw => ⟨wordKeep_ne_nil (hW3 w hw).1,
          fun c hc => alnumb_not_ws ((hW3 w hw).2 c hc)⟩
      have hstrip : pyStrip (joinWords w3) = joinWords w3 :=
        stripBy_joinBy ' ' w3 hcond3 hne3
      rw [hstrip]
      by_cases hl2 : (joinWords w3).length < 2
      · rw [if_pos hl2]; left; rfl
      · rw [if_neg hl2]
        right
        exact ⟨w3, rfl, hne3, hlen3, fun w hw => hW3 w hw, by omega⟩

theorem stripArticle_sublist (t : List Char) : List.Sublist (stripArticle t) t := by
  unfold stripArticle
  split
  · exact (stripBy_sublist _ _).trans (List.drop_sublist _ _)
  · split
    · exact (stripBy_sublist _ _).trans (List.drop_sublist _ _)
    · split
      · exact (stripBy_sublist _ _).trans (List.drop_sublist _ _)
      · exact List.Sublist.refl _

theorem normCanon_fixed {t : List Char} (h : NormCanon t) : normalizeCore t = t := by
  obtain ⟨ws, rfl, hne, hlen, hw, hlen2⟩ := h
  have hWK : ∀ w ∈ ws, wordKeep w = true := fun w hw' => (hw w hw').1
  have hCH : ∀ w ∈ ws, ∀ c ∈ w, alnumb c = true := fun w hw' => (hw w hw').2
  have hcond : ∀ w ∈ ws, w ≠ [] ∧ ∀ c ∈ w, isWs c = false :=
    fun w hw' => ⟨wordKeep_ne_nil (hWK w hw'),
      fun c hc => alnumb_not_ws (hCH w hw' c hc)⟩
  have hchars : ∀ c ∈ joinWords ws, alnumb c = true ∨ c = ' ' := by
    intro c hc
    rcases mem_joinBy hc with rfl | ⟨w, hw', hcw⟩
    · right; rfl
    · left; exact hCH w hw' c hcw
  have hstrip : pyStrip (joinWords ws) = joinWords ws := stripBy_joinBy ' ' ws hcond hne
  have hlower : (joinWords ws).map lowerAscii = joinWords ws :=
    list_map_id _ (fun c hc => lowerAscii_eq_self (hchars c hc))
  have hkm : keepMap (joinWords ws) = joinWords ws := keepMap_id hchars
  have hpw : pyWords (joinWords ws) = ws := runsBy_joinBy (by decide) ws hcond
  have hart : stripArticle (joinWords ws) = joinWords ws := by
    cases ws with
    | nil => exact absurd rfl hne
    | cons w ws' => exact stripArticle_canon (hWK w (by simp)) (hCH w (by simp))
  have hjne : joinWords ws ≠ [] := joinBy_ne_nil hne (fun w hw' => (hcond w hw').1)
  simp only [normalizeCore, hstrip, hlower]
  rw [if_neg (by simp [List.isEmpty_iff, hjne])]
  rw [hkm, hpw, hart, hpw]
  exact normFromWords_canon ws hWK hne hlen hCH hlen2

theorem normalizeCore_shape (s : List Char) :
    normalizeCore s = [] ∨ NormCanon (normalizeCore s) := by
  simp only [normalizeCore]
  by_cases h0 : ((pyStrip s).map lowerAscii).isEmpty
  · rw [if_pos h0]; left; rfl
  · rw [if_neg h0]
    apply normFromWords_shape
    intro w hw
    have hmem := runsBy_mem hw
    refine ⟨hmem.1, ?_⟩
    intro c hc
    have hc2 := hmem.2 c hc
    have hcX : c ∈ joinWords (pyWords (keepMap ((pyStrip s).map lowerAscii))) :=
      (stripArticle_sublist _).subset hc2.2
    have hkc : keepChar c = true := by
      rcases mem_joinBy hcX with rfl | ⟨u, hu, hcu⟩
      · decide
      · exact keepMap_keepChar c ((runsBy_mem hu).2 c hcu).2
    exact alnumb_of_keepChar_ne_space hkc (ne_space_of_not_ws hc2.1)

/-- C9: the tag-candidate normalizer is idempotent — applying
`_normalize_tag_candidate` to its own output returns that output
unchanged. -/
theorem normalize_tag_candidate_idempotent (s : String) :
    _normalize_tag_candidate (_normalize_tag_candidate s) = _normalize_tag_candidate s := by
  unfold _normalize_tag_candidate
  rcases normalizeCore_shape s.data with h | h
  · rw [h]; rfl
  · have h2 := normCanon_fixed h
    show String.mk (normalizeCore (normalizeCore s.data)) = String.mk (normalizeCore s.data)
    rw [h2]

/-! ## C3: concrete normalizer examples -/

/-- C3 counterexample: the claim says `_normalize_tag_candidate` drops
`"the left white wall evenly placed"` entirely, but the code keeps the
non-modifier word `"wall"`, so the result is not the empty string. -/
theorem normalize_examples_counterexample :
    ¬ (_normalize_tag_candidate "the left white wall evenly placed" = "") := by
  decide

/-- C3 amended: `"A RED Coffee-Table!"` normalizes to `"coffee table"`,
`"12"` is dropped, `"the left white wall evenly placed"` normalizes to
`"wall"` (its only non-modifier word; it is not dropped), and
`"small yellow dog"` normalizes to `"dog"`. -/
theorem normalize_examples_amended :
    _normalize_tag_candidate "A RED Coffee-Table!" = "coffee table" ∧
    _normalize_tag_candidate "12" = "" ∧
    _normalize_tag_candidate "the left white wall evenly placed" = "wall" ∧
    _normalize_tag_candidate "small yellow dog" = "dog" := by
  refine ⟨?_, ?_, ?_, ?_⟩ <;> decide

/-! ## C5: the detect-verification loop -/

theorem verifyTags_fst (detect : String → Except String Json) :
    ∀ (n : Nat) (l : List String),
      (verifyTags detect n l).fst = (l.filter (keepCand detect)).take n
  | _, [] => by simp [verifyTags]
  | 0, c :: cs => by simp [verifyTags]
  | Nat.succ k, c :: cs => by
    cases hd : detect c with
    | error e =>
      have hp : keepCand detect c = false := by simp [keepCand, hd]
      simp only [verifyTags, hd, List.filter_cons, hp, if_false]
      simpa using verifyTags_fst detect (k + 1) cs
    | ok resp =>
      cases hb : _extract_detect_boxes resp with
      | error e =>
        have hp : keepCand detect c = false := by simp [keepCand, hd, hb]
        simp only [verifyTags, hd, hb, List.filter_cons, hp, if_false]
        simpa using verifyTags_fst detect (k + 1) cs
      | ok boxes =>
        by_cases hbe : boxes.isEmpty
        · have hp : keepCand detect c = false := by simp [keepCand, hd, hb, hbe]
          simp only [verifyTags, hd, hb, hbe, List.filter_cons, hp, if_false, if_true]
          simpa using verifyTags_fst detect (k + 1) cs
        · have hp : keepCand detect c = true := by simp [keepCand, hd, hb, hbe]
          have hbe' : boxes.isEmpty = false := by
            cases hq : boxes.isEmpty
            · rfl
            · exact absurd hq hbe
          simp only [verifyTags, hd, hb, hbe', List.filter_cons, hp, if_true, if_false,
            Bool.false_eq_true]
          rw [List.take_succ_cons]
          exact congrArg (c :: ·) (verifyTags_fst detect k cs)

theorem verifyTags_mem_snd (detect : String → Except String Json) :
    ∀ (n : Nat) (l : List String) (t : String),
      t ∈ (verifyTags detect n l).fst →
      ∃ resp boxes, detect t = .ok resp ∧ _extract_detect_boxes resp = .ok boxes ∧
        boxes ≠ [] ∧ (t, boxes, resp) ∈ (verifyTags detect n l).snd
  | _, [], t, ht => by simp [verifyTags] at ht
  | 0, c :: cs, t, ht => by simp [verifyTags] at ht
  | Nat.succ k, c :: cs, t, ht => by
    cases hd : detect c with
    | error e =>
      rw [show verifyTags detect (Nat.succ k) (c :: cs) = verifyTags detect (k + 1) cs by
        simp [verifyTags, hd]] at ht ⊢
      exact verifyTags_mem_snd detect (k + 1) cs t ht
    | ok resp =>
      cases hb : _extract_detect_boxes resp with
      | error e =>
        rw [show verifyTags detect (Nat.succ k) (c :: cs) = verifyTags detect (k + 1) cs by
          simp [verifyTags, hd, hb]] at ht ⊢
        exact verifyTags_mem_snd detect (k + 1) cs t ht
      | ok boxes =>
        by_cases hbe : boxes.isEmpty
        · rw [show verifyTags detect (Nat.succ k) (c :: cs) = verifyTags detect (k + 1) cs by
            simp [verifyTags, hd, hb, hbe]] at ht ⊢
          exact verifyTags_mem_snd detect (k + 1) cs t ht
        · have hbe' : boxes.isEmpty = false := by
            cases hq : boxes.isEmpty
            · rfl
            · exact absurd hq hbe
          have hstep : verifyTags detect (Nat.succ k) (c :: cs) =
              (c :: (verifyTags detect k cs).1,
                (c, boxes, resp) :: (verifyTags detect k cs).2) := by
            simp [verifyTags, hd, hb, hbe']
          rw [hstep] at ht ⊢
          rcases List.mem_cons.mp ht with rfl | ht'
          · exact ⟨resp, boxes, hd, hb, by simpa [List.isEmpty_iff] using hbe,
              List.mem_cons_self _ _⟩
          · obtain ⟨r2, b2, h1, h2, h3, h4⟩ := verifyTags_mem_snd detect k cs t ht'
            exact ⟨r2, b2, h1, h2, h3, List.mem_cons_of_mem _ h4⟩

theorem dedupeAux_append_prefix :
    ∀ (seen : List String) (xs ys : List String),
      dedupeAux seen xs <+: dedupeAux seen (xs ++ ys)
  | seen, [], ys => by simp [dedupeAux]
  | seen, it :: rest, ys => by
    by_cases h1 : it = ""
    · simpa [dedupeAux, h1] using dedupeAux_append_prefix seen rest ys
    · by_cases h2 : it ∈ seen
      · simpa [dedupeAux, h1, h2] using dedupeAux_append_prefix seen rest ys
      · have := dedupeAux_append_prefix (it :: seen) rest ys
        simpa [dedupeAux, h1, h2] using this

theorem candidatesFor_query_prefix (qc cc : List String) :
    _dedupe_preserve_order (qc.map _normalize_tag_candidate) <+: candidatesFor qc cc := by
  simp only [candidatesFor, _dedupe_preserve_order]
  rw [List.map_append]
  exact dedupeAux_append_prefix [] _ _

/-- C5: tag verification probes the deduplicated candidate list in order,
over at most `max(24, 3 * MAX_TAGS)` candidates; a candidate is kept iff
its detect call succeeds with a non-empty normalized box list (detect and
parse errors are swallowed, skipping the candidate); the loop stops at
`MAX_TAGS` kept tags, so the kept list is the first `MAX_TAGS` passing
candidates in candidate order (a sublist of the candidate list, of length
at most `MAX_TAGS`), each with its `(tag, boxes, raw)` record; and the
normalized query-derived candidates form a prefix of the candidate list,
ahead of caption-derived ones. -/
theorem tag_verification_spec (detect : String → Except String Json) (maxTags : Nat)
    (qc cc : List String) :
    (tagDiscovery detect maxTags (candidatesFor qc cc)).fst =
      (((candidatesFor qc cc).take (max 24 (maxTags * 3))).filter
        (keepCand detect)).take maxTags ∧
    (tagDiscovery detect maxTags (candidatesFor qc cc)).fst.length ≤ maxTags ∧
    List.Sublist (tagDiscovery detect maxTags (candidatesFor qc cc)).fst
      (candidatesFor qc cc) ∧
    (∀ t ∈ (tagDiscovery detect maxTags (candidatesFor qc cc)).fst,
      keepCand detect t = true ∧
      ∃ resp boxes, detect t = .ok resp ∧ _extract_detect_boxes resp = .ok boxes ∧
        boxes ≠ [] ∧ (t, boxes, resp) ∈ (tagDiscovery detect maxTags (candidatesFor qc cc)).snd) ∧
    _dedupe_preserve_order (qc.map _normalize_tag_candidate) <+: candidatesFor qc cc := by
  have hfst := verifyTags_fst detect maxTags
    ((candidatesFor qc cc).take (max 24 (maxTags * 3)))
  refine ⟨hfst, ?_, ?_, ?_, candidatesFor_query_prefix qc cc⟩
  · rw [show (tagDiscovery detect maxTags (candidatesFor qc cc)).fst =
      (verifyTags detect maxTags ((candidatesFor qc cc).take (max 24 (maxTags * 3)))).fst
      from rfl, hfst]
    exact List.length_take_le _ _
  · rw [show (tagDiscovery detect maxTags (candidatesFor qc cc)).fst =
      (verifyTags detect maxTags ((candidatesFor qc cc).take (max 24 (maxTags * 3)))).fst
      from rfl, hfst]
    exact ((List.take_sublist _ _).trans (List.filter_sublist _)).trans
      (List.take_sublist _ _)
  · intro t ht
    have hkeep : keepCand detect t = true := by
      have ht' : t ∈ ((candidatesFor qc cc).take (max 24 (maxTags * 3))).filter
          (keepCand detect) := by
        rw [show (tagDiscovery detect maxTags (candidatesFor qc cc)).fst =
          (verifyTags detect maxTags
            ((candidatesFor qc cc).take (max 24 (maxTags * 3)))).fst from rfl, hfst] at ht
        exact List.take_subset _ _ ht
      exact (List.mem_filter.mp ht').2
    exact ⟨hkeep, verifyTags_mem_snd detect maxTags _ t ht⟩

/-- Witness instantiating the verification theorem at a concrete oracle
and candidate lists. -/
theorem tag_verification_spec_witness :
    (tagDiscovery detectW 2 (candidatesFor ["dog", "sofa"] ["window"])).fst =
      (((candidatesFor ["dog", "sofa"] ["window"]).take (max 24 (2 * 3))).filter
        (keepCand detectW)).take 2 :=
  (tag_verification_spec detectW 2 ["dog", "sofa"] ["window"]).1

/-! ## Frame lemmas for the database operations -/

theorem update_search_ai (db : DB) (aid : String) :
    (update_search_index db aid).asset_ai = db.asset_ai := by
  unfold update_search_index
  cases db.assets aid <;> rfl

theorem update_search_segments (db : DB) (aid : String) :
    (update_search_index db aid).asset_segments = db.asset_segments := by
  unfold update_search_index
  cases db.assets aid <;> rfl

theorem update_search_assets (db : DB) (aid : String) :
    (update_search_index db aid).assets = db.assets := by
  unfold update_search_index
  cases db.assets aid <;> rfl

theorem update_search_embeddings (db : DB) (aid : String) :
    (update_search_index db aid).asset_embeddings = db.asset_embeddings := by
  unfold update_search_index
  cases db.assets aid <;> rfl

theorem delete_segments_ai (db : DB) (aid : String) (keep : List String) :
    (delete_segments_not_in db aid keep).asset_ai = db.asset_ai := by
  unfold delete_segments_not_in
  split <;> rfl

theorem delete_segments_assets (db : DB) (aid : String) (keep : List String) :
    (delete_segments_not_in db aid keep).assets = db.assets := by
  unfold delete_segments_not_in
  split <;> rfl

theorem maybe_rename_ai (db : DB) (job : Job) (caption : String) (gn : Bool)
    (qt : Option String) :
    (maybe_rename_asset db job caption gn qt).asset_ai = db.asset_ai := by
  simp only [maybe_rename_asset]
  repeat' first | rfl | split

theorem maybe_rename_segments (db : DB) (job : Job) (caption : String) (gn : Bool)
    (qt : Option String) :
    (maybe_rename_asset db job caption gn qt).asset_segments = db.asset_segments := by
  simp only [maybe_rename_asset]
  repeat' first | rfl | split

theorem foldl_upsert_ai (aid : String) (segSvg : String → Option String)
    (segBbox : String → Option (List Box × Json)) (now : Nat) :
    ∀ (kept : List String) (db : DB),
      (kept.foldl (fun d tg => upsert_segment_row d aid tg (segSvg tg) (segBbox tg) now)
        db).asset_ai = db.asset_ai
  | [], _ => rfl
  | tg :: rest, db => by
    rw [List.foldl_cons]
    exact foldl_upsert_ai aid segSvg segBbox now rest _

theorem foldl_upsert_assets (aid : String) (segSvg : String → Option String)
    (segBbox : String → Option (List Box × Json)) (now : Nat) :
    ∀ (kept : List String) (db : DB),
      (kept.foldl (fun d tg => upsert_segment_row d aid tg (segSvg tg) (segBbox tg) now)
        db).assets = db.assets
  | [], _ => rfl
  | tg :: rest, db => by
    rw [List.foldl_cons]
    exact foldl_upsert_assets aid segSvg segBbox now rest _

theorem foldl_upsert_segments (aid : String) (segSvg : String → Option String)
    (segBbox : String → Option (List Box × Json)) (now : Nat) :
    ∀ (kept : List String) (db : DB) (t : String),
      (kept.foldl (fun d tg => upsert_segment_row d aid tg (segSvg tg) (segBbox tg) now)
          db).asset_segments aid t =
        if t ∈ kept then some ⟨segSvg t, segBbox t, now⟩ else db.asset_segments aid t
  | [], db, t => by simp
  | tg :: rest, db, t => by
    rw [List.foldl_cons]
    rw [foldl_upsert_segments aid segSvg segBbox now rest _ t]
    by_cases hr : t ∈ rest
    · simp [hr, List.mem_cons]
    · by_cases htg : t = tg
      · subst htg
        simp [hr, upsert_segment_row]
      · simp [hr, htg, upsert_segment_row, List.mem_cons]

/-! ## C1: the error classifier -/

theorem errorCommit_ai (db : DB) (aid status mv : String) (now : Nat) (r : AiRow)
    (h : db.asset_ai aid = some r) :
    (errorCommit db aid status mv now).asset_ai aid =
      some ⟨status, "", [], mv, now⟩ := by
  unfold errorCommit
  rw [update_search_ai, delete_segments_ai]
  simp [write_results, h]

theorem errorCommit_segments (db : DB) (aid status mv : String) (now : Nat) (t : String) :
    (errorCommit db aid status mv now).asset_segments aid t = none := by
  unfold errorCommit
  rw [update_search_segments]
  simp [delete_segments_not_in]

theorem errorCommit_assets (db : DB) (aid status mv : String) (now : Nat) :
    (errorCommit db aid status mv now).assets = db.assets := by
  unfold errorCommit
  rw [update_search_assets, delete_segments_assets]
  rfl

theorem errorCommit_search (db : DB) (aid status mv : String) (now : Nat) (a : AssetRow)
    (hA : db.assets aid = some a) :
    (errorCommit db aid status mv now).asset_search aid =
      some ⟨a.project_id, a.original_name, "", ""⟩ := by
  unfold errorCommit update_search_index
  have hA' : (delete_segments_not_in
      (write_results db aid "" [] status mv now) aid []).assets aid = some a := by
    rw [delete_segments_assets]
    exact hA
  rw [hA']
  have hai : (delete_segments_not_in
      (write_results db aid "" [] status mv now) aid []).asset_ai aid =
      (db.asset_ai aid).map
        (fun r => { r with caption := "", tags := [], status := status,
                           model_version := mv, updated_at := now }) := by
    rw [delete_segments_ai]
    simp [write_results]
  rw [hai]
  cases db.asset_ai aid <;> simp <;> rfl

/-- C1: an exception escaping the enrichment block is classified by the
worker: a `ProviderError` whose lowercased message contains one of
`"queue is full"`, `"rejected"`, `"timeout"`, `"timed out"` (the
`transientMsg` test) is transient — the worker writes, in one transaction,
an empty caption, an empty tags list, status `pending`, and the current
model version, deletes all segment rows of the asset, rebuilds its
search-index row, and then sleeps the retry backoff; any other
`ProviderError` and any other exception are fatal and commit the same
writes with status `failed` (and no sleep). -/
theorem error_classifier_spec (msg aid mv : String) (now : Nat) (db : DB) (r : AiRow)
    (h : db.asset_ai aid = some r) :
    ((handleJobError (.providerError msg) aid mv now db).sleeps = transientMsg msg) ∧
    ((handleJobError (.providerError msg) aid mv now db).status =
      if transientMsg msg then "pending" else "failed") ∧
    ((handleJobError .other aid mv now db).status = "failed" ∧
      (handleJobError .other aid mv now db).sleeps = false) ∧
    ((handleJobError (.providerError msg) aid mv now db).db.asset_ai aid =
      some ⟨if transientMsg msg then "pending" else "failed", "", [], mv, now⟩) ∧
    ((handleJobError .other aid mv now db).db.asset_ai aid =
      some ⟨"failed", "", [], mv, now⟩) ∧
    (∀ t, (handleJobError (.providerError msg) aid mv now db).db.asset_segments aid t
      = none) ∧
    (∀ t, (handleJobError .other aid mv now db).db.asset_segments aid t = none) ∧
    (∀ a, db.assets aid = some a →
      (handleJobError (.providerError msg) aid mv now db).db.asset_search aid =
        some ⟨a.project_id, a.original_name, "", ""⟩ ∧
      (handleJobError .other aid mv now db).db.asset_search aid =
        some ⟨a.project_id, a.original_name, "", ""⟩) := by
  by_cases ht : transientMsg msg = true
  · refine ⟨by simp [handleJobError, ht], by simp [handleJobError, ht],
      ⟨rfl, rfl⟩, ?_, ?_, ?_, ?_, ?_⟩
    · simp only [handleJobError, ht, if_true, if_pos]
      exact errorCommit_ai db aid "pending" mv now r h
    · exact errorCommit_ai db aid "failed" mv now r h
    · intro t
      simp only [handleJobError, ht, if_true]
      exact errorCommit_segments db aid "pending" mv now t
    · intro t
      exact errorCommit_segments db aid "failed" mv now t
    · intro a hA
      constructor
      · simp only [handleJobError, ht, if_true]
        exact errorCommit_search db aid "pending" mv now a hA
      · exact errorCommit_search db aid "failed" mv now a hA
  · have ht' : transientMsg msg = false := by
      cases hq : transientMsg msg
      · rfl
      · exact absurd hq ht
    refine ⟨by simp [handleJobError, ht'], by simp [handleJobError, ht'],
      ⟨rfl, rfl⟩, ?_, ?_, ?_, ?_, ?_⟩
    · simp only [handleJobError, ht', Bool.false_eq_true, if_false]
      exact errorCommit_ai db aid "failed" mv now r h
    · exact errorCommit_ai db aid "failed" mv now r h
    · intro t
      simp only [handleJobError, ht', Bool.false_eq_true, if_false]
      exact errorCommit_segments db aid "failed" mv now t
    · intro t
      exact errorCommit_segments db aid "failed" mv now t
    · intro a hA
      constructor
      · simp only [handleJobError, ht', Bool.false_eq_true, if_false]
        exact errorCommit_search db aid "failed" mv now a hA
      · exact errorCommit_search db aid "failed" mv now a hA

/-- Witness instantiating the classifier theorem on a concrete database
with a transient message. -/
theorem error_classifier_spec_witness :
    (handleJobError (.providerError "timeout") "a1" "mv" 5 dbW).db.asset_ai "a1" =
      some ⟨if transientMsg "timeout" then "pending" else "failed", "", [], "mv", 5⟩ ∧
    (∀ t, (handleJobError .other "a1" "mv" 5 dbW).db.asset_segments "a1" t = none) :=
  ⟨(error_classifier_spec "timeout" "a1" "mv" 5 dbW ⟨"processing", "old", ["x"], "mv0", 0⟩
      (by decide)).2.2.2.1,
   (error_classifier_spec "timeout" "a1" "mv" 5 dbW ⟨"processing", "old", ["x"], "mv0", 0⟩
      (by decide)).2.2.2.2.2.2.1⟩

/-- C10: neither error path ever touches the `assets` table — after a
transient or fatal commit the asset's `assets` row (including
`original_name`) is exactly as it was at lease time, and the
`processing` lease transition also leaves `assets` unchanged; the
`original_name` update of the filename-alias step exists only inside the
success commit. -/
theorem failure_paths_preserve_assets (exc : WorkerExc) (aid mv st2 : String)
    (now : Nat) (db : DB) :
    (handleJobError exc aid mv now db).db.assets = db.assets ∧
    (set_status db aid st2 now).assets = db.assets := by
  constructor
  · cases exc with
    | providerError msg =>
      by_cases ht : transientMsg msg <;>
        simp [handleJobError, ht, errorCommit_assets]
    | other => simp [handleJobError, errorCommit_assets]
  · rfl

/-! ## C2: segment rows match `tags_json` -/

theorem upsert_embedding_ai (db : DB) (aid m : String) (d : Nat) (b : List Nat)
    (now : Nat) : (upsert_embedding_row db aid m d b now).asset_ai = db.asset_ai := rfl

theorem upsert_embedding_segments (db : DB) (aid m : String) (d : Nat) (b : List Nat)
    (now : Nat) : (upsert_embedding_row db aid m d b now).asset_segments =
      db.asset_segments := rfl

theorem commitSuccess_ai (db : DB) (job : Job) (caption : String) (kept : List String)
    (mv : String) (gn : Bool) (qt : Option String)
    (emb : Option (String × Nat × List Nat)) (segSvg : String → Option String)
    (segBbox : String → Option (List Box × Json)) (now : Nat) (r : AiRow)
    (h : db.asset_ai job.asset_id = some r) :
    (commitSuccess db job caption kept mv gn qt emb segSvg segBbox now).asset_ai
      job.asset_id = some ⟨"done", caption, kept, mv, now⟩ := by
  cases emb with
  | none =>
    simp only [commitSuccess]
    rw [update_search_ai, delete_segments_ai, foldl_upsert_ai, maybe_rename_ai]
    simp [write_results, h]
  | some x =>
    obtain ⟨m, d, b⟩ := x
    simp only [commitSuccess]
    split
    · rw [update_search_ai, delete_segments_ai, foldl_upsert_ai, upsert_embedding_ai,
        maybe_rename_ai]
      simp [write_results, h]
    · rw [update_search_ai, delete_segments_ai, foldl_upsert_ai, maybe_rename_ai]
      simp [write_results, h]

theorem segments_core (db3 : DB) (aid : String) (kept : List String)
    (segSvg : String → Option String) (segBbox : String → Option (List Box × Json))
    (now : Nat) (t : String) :
    ((update_search_index (delete_segments_not_in
        (kept.foldl (fun d tg => upsert_segment_row d aid tg (segSvg tg) (segBbox tg) now)
          db3) aid kept) aid).asset_segments aid t).isSome ↔ t ∈ kept := by
  rw [update_search_segments]
  by_cases hk : kept.isEmpty
  · have hnil : kept = [] := by simpa [List.isEmpty_iff] using hk
    subst hnil
    simp [delete_segments_not_in]
  · have hk' : kept.isEmpty = false := by
      cases hq : kept.isEmpty
      · rfl
      · exact absurd hq hk
    by_cases hmem : t ∈ kept
    · simp [delete_segments_not_in, hk', foldl_upsert_segments, hmem]
    · simp [delete_segments_not_in, hk', foldl_upsert_segments, hmem]

theorem commitSuccess_segments (db : DB) (job : Job) (caption : String)
    (kept : List String) (mv : String) (gn : Bool) (qt : Option String)
    (emb : Option (String × Nat × List Nat)) (segSvg : String → Option String)
    (segBbox : String → Option (List Box × Json)) (now : Nat) (t : String) :
    ((commitSuccess db job caption kept mv gn qt emb segSvg segBbox now).asset_segments
      job.asset_id t).isSome ↔ t ∈ kept := by
  cases emb with
  | none =>
    simp only [commitSuccess]
    exact segments_core _ _ _ _ _ _ _
  | some x =>
    obtain ⟨m, d, b⟩ := x
    simp only [commitSuccess]
    split
    · exact segments_core _ _ _ _ _ _ _
    · exact segments_core _ _ _ _ _ _ _

/-- C2: after a successful commit the asset's `asset_ai` row holds status
`done` with `tags_json` equal to the kept tags, and the set of
`(asset_id, tag)` segment rows of the asset is exactly the kept-tag set;
after either error commit (status `pending` or `failed`) no segment row
for the asset remains. -/
theorem segments_invariant_spec (db : DB) (job : Job) (caption : String)
    (kept : List String) (mv : String) (gn : Bool) (qt : Option String)
    (emb : Option (String × Nat × List Nat)) (segSvg : String → Option String)
    (segBbox : String → Option (List Box × Json)) (now : Nat) (r : AiRow)
    (h : db.asset_ai job.asset_id = some r) :
    ((commitSuccess db job caption kept mv gn qt emb segSvg segBbox now).asset_ai
      job.asset_id = some ⟨"done", caption, kept, mv, now⟩) ∧
    (∀ t, ((commitSuccess db job caption kept mv gn qt emb segSvg segBbox now).asset_segments
      job.asset_id t).isSome ↔ t ∈ kept) ∧
    (∀ (exc : WorkerExc) (t : String),
      (handleJobError exc job.asset_id mv now db).db.asset_segments job.asset_id t = none) := by
  refine ⟨commitSuccess_ai db job caption kept mv gn qt emb segSvg segBbox now r h,
    fun t => commitSuccess_segments db job caption kept mv gn qt emb segSvg segBbox now t,
    ?_⟩
  intro exc t
  cases exc with
  | providerError msg =>
    by_cases ht : transientMsg msg <;>
      simp [handleJobError, ht, errorCommit_segments]
  | other => simp [handleJobError, errorCommit_segments]

/-- Witness instantiating the segment invariant on a concrete database
and kept-tag list. -/
theorem segments_invariant_spec_witness :
    ((commitSuccess dbW jobW "A cat." ["dog", "sofa"] "mv" true none none
      (fun _ => none) (fun _ => none) 7).asset_ai "a1" =
        some ⟨"done", "A cat.", ["dog", "sofa"], "mv", 7⟩) ∧
    (∀ t, ((commitSuccess dbW jobW "A cat." ["dog", "sofa"] "mv" true none none
      (fun _ => none) (fun _ => none) 7).asset_segments "a1" t).isSome ↔
        t ∈ ["dog", "sofa"]) :=
  ⟨(segments_invariant_spec dbW jobW "A cat." ["dog", "sofa"] "mv" true none none
      (fun _ => none) (fun _ => none) 7 ⟨"processing", "old", ["x"], "mv0", 0⟩
      (by decide)).1,
   (segments_invariant_spec dbW jobW "A cat." ["dog", "sofa"] "mv" true none none
      (fun _ => none) (fun _ => none) 7 ⟨"processing", "old", ["x"], "mv0", 0⟩
      (by decide)).2.1⟩

/-! ## C7: the embedder singleton -/

/-- C7 counterexample: after a failed initialization `_get_embedder`
resets both globals to `None`, a state indistinguishable from "never
initialized", so the very next call attempts initialization again and
prints the failure line again — the feature is not permanently disabled
and the failure is not logged only once per process. -/
theorem embedder_disable_counterexample :
    ((_get_embedder false "m" ⟨none, none⟩).attempted = true ∧
     (_get_embedder false "m" ⟨none, none⟩).logged = true) ∧
    ((_get_embedder false "m" (_get_embedder false "m" ⟨none, none⟩).st).attempted = true ∧
     (_get_embedder false "m" (_get_embedder false "m" ⟨none, none⟩).st).logged = true) := by
  decide

/-- C7 amended: a failed initialization logs on that call and resets both
globals to `None`; because that state equals the uninitialized state,
every later call attempts initialization again (and, while the library
stays unavailable, logs again on every such call).  Only a successful
initialization is cached: a cached handle with a matching model name is
returned with no new attempt and no log line. -/
theorem embedder_retry_spec (avail : Bool) (name m : String) (st : EmbState) :
    (st.embedder = none →
      (_get_embedder false name st).st = ⟨none, none⟩ ∧
      (_get_embedder false name st).attempted = true ∧
      (_get_embedder false name st).logged = true ∧
      (_get_embedder avail name st).attempted = true) ∧
    (st.embedder = some m → st.model_name = some name →
      _get_embedder avail name st = ⟨st, some (m, name), false, false⟩) ∧
    (st.embedder = some m → st.model_name ≠ some name →
      (_get_embedder avail name st).attempted = true) := by
  refine ⟨?_, ?_, ?_⟩
  · intro h
    simp only [_get_embedder, h]
    cases avail <;> simp
  · intro h1 h2
    simp [_get_embedder, h1, h2]
  · intro h1 h2
    simp only [_get_embedder, h1]
    rw [if_neg h2]
    cases avail <;> simp

/-- Witness instantiating the embedder retry behavior at concrete states. -/
theorem embedder_retry_spec_witness :
    (_get_embedder false "m" ⟨none, none⟩).st = ⟨none, none⟩ ∧
    _get_embedder true "m" ⟨some "h", some "m"⟩ =
      ⟨⟨some "h", some "m"⟩, some ("h", "m"), false, false⟩ :=
  ⟨((embedder_retry_spec false "m" "h" ⟨none, none⟩).1 rfl).1,
   (embedder_retry_spec true "m" "h" ⟨some "h", some "m"⟩).2.1 rfl rfl⟩

/-! ## C8: the detect normalizer can raise on malformed entries -/

/-- C8: the detect normalizer is documented as tolerant, but its
`{x, y, w, h}` branch calls `float()` without a `try/except`, so an item
whose coordinate value cannot be converted raises out of
`_extract_detect_boxes` (modelled as `Except.error`) instead of being
skipped; the adjacent `x_min`-shaped branch with the same malformed value
is skipped as documented. -/
theorem extract_detect_boxes_raises :
    _extract_detect_boxes (.obj [("objects", .arr [.obj
      [("x", .null), ("y", .num 0), ("w", .num 1), ("h", .num 1)]])]) =
      .error "TypeError" ∧
    _extract_detect_boxes (.obj [("objects", .arr [.obj
      [("x_min", .null), ("y_min", .num 0), ("x_max", .num 1), ("y_max", .num 1)]])]) =
      .ok [] :=
  ⟨rfl, rfl⟩

/-! ## C4: provider failure conditions -/

/-- C4 counterexample: the remote (HuggingFace) provider breaks the
claimed equivalence — a transport failure escapes as a raw
`RequestException` rather than a `ProviderError`, a body with a truthy
`error` field is accepted without raising, and even on the local station a
non-JSON 200 body escapes as a `JSONDecodeError`. -/
theorem provider_error_counterexample :
    hfCaption (.fail "connection refused") = .exc "RequestException" ∧
    isProviderError (hfCaption (.fail "connection refused")) = false ∧
    isProviderError (hfCaption (.resp 200 ""
      (some (.obj [("error", .str "boom")])))) = false ∧
    stationCaption (.resp 200 "not json" none) = .exc "JSONDecodeError" :=
  ⟨rfl, rfl, rfl, rfl⟩

theorem stationText_no_pe (keys : List String) (data : Json) :
    isProviderError (stationTextOf keys data) = false := by
  unfold stationTextOf
  split
  · split
    · rfl
    · rfl
  · rfl

theorem stationCall_pe (op : String) (t : Transport) :
    isProviderError (stationCall op t) = true ↔ specStationFailure t = true := by
  cases t with
  | fail m => simp [stationCall, specStationFailure, isProviderError]
  | resp s txt body =>
    by_cases hs : 400 ≤ s
    · simp [stationCall, specStationFailure, hs, isProviderError]
    · cases body with
      | none => simp [stationCall, specStationFailure, hs, isProviderError]
      | some data =>
        cases data with
        | obj f =>
          by_cases hbad : (truthy (jGetD f "error") ||
              (jGetD f "status" matches .str "rejected") ||
              (jGetD f "status" matches .str "timeout")) = true
          · simp [stationCall, specStationFailure, hs, isProviderError, hbad]
          · have hbad' : (truthy (jGetD f "error") ||
                (jGetD f "status" matches .str "rejected") ||
                (jGetD f "status" matches .str "timeout")) = false := by
              cases hq : (truthy (jGetD f "error") ||
                  (jGetD f "status" matches .str "rejected") ||
                  (jGetD f "status" matches .str "timeout"))
              · rfl
              · exact absurd hq hbad
            simp [stationCall, specStationFailure, hs, isProviderError, hbad']
        | null => simp [stationCall, specStationFailure, hs, isProviderError]
        | bool b => simp [stationCall, specStationFailure, hs, isProviderError]
        | num q => simp [stationCall, specStationFailure, hs, isProviderError]
        | str s => simp [stationCall, specStationFailure, hs, isProviderError]
        | arr items => simp [stationCall, specStationFailure, hs, isProviderError]

theorem stationCaption_pe (t : Transport) :
    isProviderError (stationCaption t) = true ↔ specStationFailure t = true := by
  rw [← stationCall_pe "caption" t]
  unfold stationCaption
  cases h : stationCall "caption" t with
  | ok d =>
    show isProviderError (stationTextOf ["caption", "text"] d) = true ↔
      isProviderError (Outcome.ok d) = true
    rw [stationText_no_pe]
    simp [isProviderError]
  | providerError m => exact Iff.rfl
  | exc k => exact Iff.rfl

theorem stationQuery_pe (t : Transport) :
    isProviderError (stationQuery t) = true ↔ specStationFailure t = true := by
  rw [← stationCall_pe "query" t]
  unfold stationQuery
  cases h : stationCall "query" t with
  | ok d =>
    show isProviderError (stationTextOf ["answer", "text", "caption"] d) = true ↔
      isProviderError (Outcome.ok d) = true
    rw [stationText_no_pe]
    simp [isProviderError]
  | providerError m => exact Iff.rfl
  | exc k => exact Iff.rfl

/-- C4 amended: for the local-station provider, every operation raises
`ProviderError` exactly when the transport fails, the HTTP status is
`>= 400`, or the JSON body is an object with a truthy `error` field or a
`status` of `rejected`/`timeout`; for `detect` and `segment` no other
exception escapes when the body is valid JSON, and the call succeeds.
For the remote (HuggingFace) provider, `caption` raises `ProviderError`
exactly when the HTTP status is `>= 400` (a transport failure instead
escapes unconverted), and `detect`, `segment` and `query` always raise
`ProviderError` ("not supported"). -/
theorem provider_error_amended (t : Transport) :
    (isProviderError (stationCaption t) = true ↔ specStationFailure t = true) ∧
    (isProviderError (stationDetect t) = true ↔ specStationFailure t = true) ∧
    (isProviderError (stationSegment t) = true ↔ specStationFailure t = true) ∧
    (isProviderError (stationQuery t) = true ↔ specStationFailure t = true) ∧
    (∀ (s : Nat) (txt : String) (b : Json),
      specStationFailure (.resp s txt (some b)) = false →
        stationDetect (.resp s txt (some b)) = .ok b ∧
        stationSegment (.resp s txt (some b)) = .ok b) ∧
    (isProviderError (hfCaption t) = true ↔
      ∃ (s : Nat) (txt : String) (b : Option Json), t = .resp s txt b ∧ 400 ≤ s) ∧
    isProviderError hfDetect = true ∧ isProviderError hfSegment = true ∧
    isProviderError hfQuery = true := by
  refine ⟨stationCaption_pe t, stationCall_pe "detect" t, stationCall_pe "segment" t,
    stationQuery_pe t, ?_, ?_, rfl, rfl, rfl⟩
  · intro s txt b hspec
    have hs : ¬ (400 ≤ s) := by
      intro hle
      simp [specStationFailure, hle] at hspec
    have hcall : ∀ op : String, stationCall op (.resp s txt (some b)) = .ok b := by
      intro op
      cases b with
      | obj f =>
        have hspec' := hspec
        simp only [specStationFailure] at hspec'
        rw [Bool.or_eq_false_iff] at hspec'
        simp [stationCall, hs, hspec'.2]
      | null => simp [stationCall, hs]
      | bool x => simp [stationCall, hs]
      | num q => simp [stationCall, hs]
      | str s2 => simp [stationCall, hs]
      | arr xs => simp [stationCall, hs]
    exact ⟨hcall "detect", hcall "segment"⟩
  · cases t with
    | fail m =>
      simp [hfCaption, isProviderError]
    | resp s txt body =>
      by_cases hs : 400 ≤ s
      · simp only [hfCaption, hs, if_pos, isProviderError]
        constructor
        · intro _
          exact ⟨s, txt, body, rfl, hs⟩
        · intro _
          trivial
      · constructor
        · intro hpe
          exfalso
          cases body with
          | none => simp [hfCaption, hs, isProviderError] at hpe
          | some data => simp [hfCaption, hs, isProviderError] at hpe
        · rintro ⟨s', txt', b', heq, hle⟩
          injection heq with h1 h2 h3
          subst h1
          exact absurd hle hs

/-- Witness instantiating the amended provider theorem at concrete
transports. -/
theorem provider_error_amended_witness :
    isProviderError (stationDetect (.resp 500 "boom" (some .null))) = true ∧
    stationDetect (.resp 200 "" (some (.obj [("objects", .arr [])]))) =
      .ok (.obj [("objects", .arr [])]) :=
  ⟨(provider_error_amended (.resp 500 "boom" (some .null))).2.1.mpr (by decide),
   ((provider_error_amended (.resp 200 "" (some (.obj [("objects", .arr [])])))).2.2.2.2.1
      200 "" (.obj [("objects", .arr [])]) (by decide)).1⟩

/-! ## C6: slugify and the pretty name -/

theorem slugAux_chars : ∀ (l : List Char) (d : Bool) (c : Char),
    c ∈ slugAux l d → alnumb c = true ∨ c = '-'
  | [], _, c, h => by simp [slugAux] at h
  | x :: xs, d, c, h => by
    simp only [slugAux] at h
    by_cases ha : alnumb x
    · rw [if_pos ha] at h
      rcases List.mem_cons.mp h with rfl | h2
      · exact Or.inl ha
      · exact slugAux_chars xs false c h2
    · rw [if_neg ha] at h
      cases d with
      | true =>
        rw [if_pos rfl] at h
        exact slugAux_chars xs true c h
      | false =>
        rw [if_neg (by simp)] at h
        rcases List.mem_cons.mp h with rfl | h2
        · exact Or.inr rfl
        · exact slugAux_chars xs true c h2

theorem filter_alnumb_slugAux : ∀ (l : List Char) (d : Bool),
    (slugAux l d).filter alnumb = l.filter alnumb
  | [], _ => rfl
  | x :: xs, d => by
    simp only [slugAux]
    by_cases ha : alnumb x
    · rw [if_pos ha]
      simp [List.filter_cons, ha, filter_alnumb_slugAux xs false]
    · rw [if_neg ha]
      cases d with
      | true =>
        rw [if_pos rfl]
        simp [List.filter_cons, ha, filter_alnumb_slugAux xs true]
      | false =>
        rw [if_neg (by simp)]
        have hd : alnumb '-' = false := by decide
        simp [List.filter_cons, ha, hd, filter_alnumb_slugAux xs true]

theorem filter_dropWhile_eq {p : Char → Bool}
    (himp : ∀ c, p c = true → alnumb c = false) :
    ∀ l : List Char, ((l.dropWhile p).filter alnumb) = l.filter alnumb
  | [] => rfl
  | c :: cs => by
    by_cases hp : p c
    · simp [List.dropWhile_cons, hp, List.filter_cons, himp c hp,
        filter_dropWhile_eq himp cs]
    · simp [List.dropWhile_cons, hp]

theorem filter_dropTail_eq {p : Char → Bool}
    (himp : ∀ c, p c = true → alnumb c = false) :
    ∀ l : List Char, ((dropTail p l).filter alnumb) = l.filter alnumb
  | [] => rfl
  | c :: cs => by
    have ih := filter_dropTail_eq himp cs
    rw [dropTail_cons]
    cases hdt : dropTail p cs with
    | nil =>
      rw [hdt] at ih
      simp only [List.filter_nil] at ih
      by_cases hp : p c
      · rw [if_pos hp]
        simp [List.filter_cons, himp c hp, ← ih]
      · rw [if_neg hp]
        simp [List.filter_cons, ← ih]
    | cons r rs =>
      rw [hdt] at ih
      simp [List.filter_cons, ih]

theorem join_splitKeep (p : Char → Bool) : ∀ l : List Char,
    (splitKeep p l).flatten = l.filter (fun c => ! p c)
  | [] => rfl
  | c :: cs => by
    by_cases hp : p c
    · simp [splitKeep, hp, join_splitKeep p cs, List.filter_cons]
    · cases hsk : splitKeep p cs with
      | nil => exact absurd hsk (splitKeep_ne_nil p cs)
      | cons r rs =>
        have hj := join_splitKeep p cs
        rw [hsk] at hj
        simp only [splitKeep, hp, if_false, hsk, List.flatten_cons, List.filter_cons]
        simp only [List.flatten_cons] at hj
        simp [hp, hj]

theorem join_filter_ne_nil : ∀ xs : List (List Char),
    (xs.filter (· ≠ [])).flatten = xs.flatten
  | [] => rfl
  | x :: xs => by
    by_cases hx : x = []
    · subst hx
      rw [List.filter_cons_of_neg (by simp), join_filter_ne_nil xs]
      simp
    · rw [List.filter_cons_of_pos (by simpa using hx), List.flatten_cons,
        List.flatten_cons, join_filter_ne_nil xs]

theorem runsBy_join (p : Char → Bool) (l : List Char) :
    (runsBy p l).flatten = l.filter (fun c => ! p c) := by
  rw [runsBy, join_filter_ne_nil, join_splitKeep]

theorem filter_joinBy {p : Char → Bool} {sep : Char} (hsep : p sep = false) :
    ∀ ws : List (List Char), (∀ w ∈ ws, ∀ c ∈ w, p c = true) →
      (joinBy sep ws).filter p = ws.flatten
  | [], _ => rfl
  | [w], h => by
    simp only [joinBy, List.flatten]
    simpa using List.filter_eq_self.mpr (h w (by simp))
  | w :: w' :: ws, h => by
    have hjoin : joinBy sep (w :: w' :: ws) = w ++ sep :: joinBy sep (w' :: ws) := by
      simp [joinBy]
    rw [hjoin, List.filter_append, List.filter_cons]
    simp only [hsep, Bool.false_eq_true, if_false]
    rw [List.filter_eq_self.mpr (h w (by simp)),
      filter_joinBy hsep (w' :: ws) (fun u hu => h u (List.mem_cons_of_mem _ hu))]
    simp [List.flatten_cons]

theorem slug_decomp (s : String) :
    ∃ full : List Char,
      _slugify_filename_base s = (⟨full.take 64⟩ : String) ∧
      joinBy '-' (runsBy (fun c => c = '-') full) = full ∧
      (∀ c ∈ full, alnumb c = true ∨ c = '-') ∧
      full.filter alnumb = ((pyStrip s.data).map lowerAscii).filter alnumb := by
  refine ⟨joinBy '-' (runsBy (fun c => c = '-')
    (stripBy (fun c => c = '-') (slugAux ((pyStrip s.data).map lowerAscii) false))),
    rfl, ?_, ?_, ?_⟩
  · have hcond : ∀ w ∈ runsBy (fun c => c = '-')
        (stripBy (fun c => c = '-') (slugAux ((pyStrip s.data).map lowerAscii) false)),
        w ≠ [] ∧ ∀ c ∈ w, (decide (c = '-')) = false :=
      fun w hw => ⟨(runsBy_mem hw).1, fun c hc => ((runsBy_mem hw).2 c hc).1⟩
    rw [runsBy_joinBy (by decide) _ hcond]
  · intro c hc
    rcases mem_joinBy hc with rfl | ⟨w, hw, hcw⟩
    · exact Or.inr rfl
    · have h1 := (runsBy_mem hw).2 c hcw
      have h2 : c ∈ slugAux ((pyStrip s.data).map lowerAscii) false :=
        (stripBy_sublist _ _).subset h1.2
      exact slugAux_chars _ false c h2
  · have himp : ∀ c : Char, decide (c = '-') = true → alnumb c = false := by
      intro c h
      rw [of_decide_eq_true h]
      decide
    have hchars : ∀ w ∈ runsBy (fun c => c = '-')
        (stripBy (fun c => c = '-') (slugAux ((pyStrip s.data).map lowerAscii) false)),
        ∀ c ∈ w, alnumb c = true := by
      intro w hw c hc
      have h1 := (runsBy_mem hw).2 c hc
      have h2 : c ∈ slugAux ((pyStrip s.data).map lowerAscii) false :=
        (stripBy_sublist _ _).subset h1.2
      rcases slugAux_chars _ false c h2 with h3 | h3
      · exact h3
      · exfalso
        rw [h3] at h1
        simp at h1
    rw [filter_joinBy (by decide) _ hchars, runsBy_join]
    have hcg : List.filter (fun c => ! decide (c = '-'))
        (stripBy (fun c => c = '-') (slugAux ((pyStrip s.data).map lowerAscii) false)) =
        List.filter alnumb
          (stripBy (fun c => c = '-') (slugAux ((pyStrip s.data).map lowerAscii) false)) := by
      apply List.filter_congr
      intro c hc
      have h2 : c ∈ slugAux ((pyStrip s.data).map lowerAscii) false :=
        (stripBy_sublist _ _).subset hc
      rcases slugAux_chars _ false c h2 with h3 | h3
      · have hne : c ≠ '-' := by
          intro he
          rw [he] at h3
          exact absurd h3 (by decide)
        simp [hne, h3]
      · subst h3
        decide
    rw [hcg, stripBy, filter_dropTail_eq himp, filter_dropWhile_eq himp,
      filter_alnumb_slugAux]

/-- C6: the pretty display name is `<slug>--<sha8><ext>`: the slug is the
lowercased stripped title whose maximal non-alphanumeric runs are replaced
by single dashes with the ends trimmed and runs collapsed (it is the
single-dash join of its own maximal non-dash runs, keeps exactly the
alphanumeric characters of the lowercased title in order, and is truncated
to 64 characters); `sha8` is the first 8 characters of `sha256` and the
`--<sha8>` part is omitted exactly when `sha256` is empty; the extension
comes from `storage_path` with `original_name` as fallback (as embedded in
`_pick_extension`); and the caption "A cat playing with yarn." with sha256
`abcdef1234567890` and a `.jpg` storage path yields the display name
`a-cat-playing-with-yarn--abcdef12.jpg`. -/
theorem pretty_name_spec :
    (∀ s : String, (_slugify_filename_base s).length ≤ 64 ∧
      ∃ full : List Char,
        _slugify_filename_base s = (⟨full.take 64⟩ : String) ∧
        joinBy '-' (runsBy (fun c => c = '-') full) = full ∧
        (∀ c ∈ full, alnumb c = true ∨ c = '-') ∧
        full.filter alnumb = ((pyStrip s.data).map lowerAscii).filter alnumb) ∧
    (∀ (job : Job) (base : String), job.sha256 = "" →
      prettyNameOf job base = base ++ _pick_extension job) ∧
    (∀ (job : Job) (base : String), job.sha256 ≠ "" →
      prettyNameOf job base =
        base ++ "--" ++ (⟨job.sha256.data.take 8⟩ : String) ++ _pick_extension job) ∧
    (maybe_rename_asset dbW jobW "A cat playing with yarn." true none).assets "a1" =
      some { assetRowW with original_name := "a-cat-playing-with-yarn--abcdef12.jpg" } := by
  refine ⟨?_, ?_, ?_, ?_⟩
  · intro s
    obtain ⟨full, heq, h2, h3, h4⟩ := slug_decomp s
    refine ⟨?_, full, heq, h2, h3, h4⟩
    rw [heq]
    exact List.length_take_le _ _
  · intro job base h
    have hd : job.sha256.data = [] := by rw [h]
    simp [prettyNameOf, hd]
  · intro job base h
    have hd : job.sha256.data ≠ [] := by
      intro he
      exact h (String.ext he)
    have hne : (⟨job.sha256.data.take 8⟩ : String) ≠ "" := by
      intro he
      have : job.sha256.data.take 8 = [] := congrArg String.data he
      rcases List.take_eq_nil_iff.mp this with h8 | hnil
      · exact absurd h8 (by decide)
      · exact hd hnil
    simp only [prettyNameOf, hne, if_false]
    rw [← String.append_assoc]
  · decide

/-- Witness instantiating the pretty-name theorem at the fixture job. -/
theorem pretty_name_spec_witness :
    prettyNameOf jobW "a-cat" =
      "a-cat" ++ "--" ++ (⟨jobW.sha256.data.take 8⟩ : String) ++ _pick_extension jobW :=
  pretty_name_spec.2.2.1 jobW "a-cat" (by decide)
